import Mathlib

/-!
Verification of the fct_stats scraper core against its specification:
the shared value-parsing primitives (`base_parser.py`), the school and
event fuzzy matchers (`school_matcher.py`, `event_matcher.py`) and the
format extractors (`milesplit_multi.py`, `milesplit_single.py`,
`generic_table.py`, `hytek_text.py`).

Modeling conventions:
* A Python `str` is modeled as `List Char`.  The helpers mirror
  `str.strip`, `str.lower`, `str.split`, `str.isdigit` on their ASCII
  fragment (every input the scraper handles is ASCII text).
* A Python `float` is modeled as `ℚ` (exact arithmetic).  The numeric
  claims of the specification carry tolerances (0.01, 0.001) that absorb
  the difference between binary floating point and exact rationals.
  Non-finite literals (`inf`, `nan`) and underscore digit separators
  accepted by Python's `float()` are outside the scope of every claim and
  are not modeled (they are mapped to a parse failure).
* A Python expression that can raise is modeled in `Except PyErr`;
  a `try/except` block is modeled by handling the corresponding `.error`.
  A function returning `.ok` for every input is one that never raises.
* `rapidfuzz` scorers are modeled on the 0-100 scale over `ℚ`:
  `fuzz.ratio` by its definition (normalized indel similarity) and
  `fuzz.partial_ratio` as the best `fuzz.ratio` of the shorter string
  against the substrings of the longer one.
* The regular expressions of the extractors are interpreted by a small
  backtracking engine over an AST that transcribes each pattern; the
  one-line character-class substitutions and the anchored literal
  patterns are compiled to direct list functions, each with a comment
  arguing the equivalence.
* `BeautifulSoup` is an external collaborator: the HTML branches of the
  extractors consume the list of tables (each a list of rows, each a
  list of already `get_text(strip=True)`-extracted cell strings) that
  the library would deliver, passed as an explicit argument.
-/

set_option maxRecDepth 8000

/-! ### Python string primitives -/

/-- ASCII fragment of `str.lower` for a single character. -/
def pyLowerChar (c : Char) : Char :=
  if 65 ≤ c.toNat ∧ c.toNat ≤ 90 then Char.ofNat (c.toNat + 32) else c

/-- ASCII fragment of `str.lower`. -/
def pyLower (s : List Char) : List Char := s.map pyLowerChar

/-- The ASCII whitespace characters stripped by `str.strip()` and matched
by the regex class `\s`. -/
def isPySpace (c : Char) : Bool :=
  c.toNat = 32 || c.toNat = 9 || c.toNat = 10 || c.toNat = 13 || c.toNat = 11 || c.toNat = 12

/-- `'0' ≤ c ≤ '9'` (codepoints 48-57). -/
def isAsciiDigit (c : Char) : Bool := 48 ≤ c.toNat && c.toNat ≤ 57

/-- `'a' ≤ c ≤ 'z'` (codepoints 97-122). -/
def isAsciiLower (c : Char) : Bool := 97 ≤ c.toNat && c.toNat ≤ 122

/-- `'A' ≤ c ≤ 'Z'` (codepoints 65-90). -/
def isAsciiUpper (c : Char) : Bool := 65 ≤ c.toNat && c.toNat ≤ 90

def isAsciiAlpha (c : Char) : Bool := isAsciiLower c || isAsciiUpper c

/-- `\w`: word characters (ASCII fragment). -/
def isWordChar (c : Char) : Bool := isAsciiAlpha c || isAsciiDigit c || c == '_'

/-- `str.lstrip()`. -/
def pyLStrip (s : List Char) : List Char := s.dropWhile isPySpace

/-- `str.rstrip()`. -/
def pyRStrip (s : List Char) : List Char := (s.reverse.dropWhile isPySpace).reverse

/-- `str.strip()`. -/
def pyStrip (s : List Char) : List Char := pyRStrip (pyLStrip s)

/-- `str.split(sep)` for a one-character separator: keeps empty pieces,
so the result is always non-empty (`"".split(':') == ['']`). -/
def splitOnChar (sep : Char) : List Char → List (List Char)
  | [] => [[]]
  | c :: cs =>
    if c = sep then [] :: splitOnChar sep cs
    else
      match splitOnChar sep cs with
      | [] => [[c]]
      | h :: t => (c :: h) :: t

/-- `str.split('\n')`, how every extractor walks lines. -/
def splitLines (s : List Char) : List (List Char) := splitOnChar '\n' s

/-- `'\n'.join` / the inverse of `splitLines` on newline-free pieces. -/
def joinLines : List (List Char) → List Char
  | [] => []
  | [l] => l
  | l :: ls => l ++ '\n' :: joinLines ls

/-- Python `needle in hay` for strings (substring containment). -/
def strContains (hay needle : List Char) : Bool :=
  needle.isPrefixOf hay ||
    match hay with
    | [] => false
    | _ :: t => strContains t needle

/-- Index of the first occurrence of `needle` in `hay`, if any: the
position `re.search` reports for an escaped-literal pattern. -/
def strFind (hay needle : List Char) : Option Nat :=
  if needle.isPrefixOf hay then some 0
  else
    match hay with
    | [] => none
    | _ :: t => (strFind t needle).map (· + 1)

/-- Case-insensitive substring search, as performed by
`re.search(re.escape(h), content, re.IGNORECASE)`: start index if found. -/
def ciFind (hay needle : List Char) : Option Nat :=
  strFind (pyLower hay) (pyLower needle)

/-- `str.isdigit()` on ASCII: non-empty and all decimal digits. -/
def pyIsDigit (s : List Char) : Bool := !s.isEmpty && s.all isAsciiDigit

/-! ### Python numeric conversions over `ℚ` -/

def digitVal (c : Char) : Nat := c.toNat - '0'.toNat

/-- Value of a string of decimal digits (the core of `int()`/`float()`). -/
def readDigits (s : List Char) : Nat :=
  s.foldl (fun a c => 10 * a + digitVal c) 0

/-- Split an optional leading `+`/`-` sign, returning the sign as `±1`. -/
def splitSign : List Char → Int × List Char
  | [] => (1, [])
  | c :: r => if c = '+' then (1, r) else if c = '-' then (-1, r) else (1, c :: r)

/-- Python `int(s)` (ASCII digits, optional sign, surrounding blanks). -/
def pyInt (s : List Char) : Option Int :=
  let t := pyStrip s
  let (sign, t) := splitSign t
  if t ≠ [] ∧ t.all isAsciiDigit then some (sign * readDigits t) else none

/-- Exponent suffix of a `float()` literal: `""` or `e[sign]digits`.
Returns the scale factor. -/
def pyFloatExpPart : List Char → Option ℚ
  | [] => some 1
  | c :: r =>
    if c = 'e' ∨ c = 'E' then
      let (es, r2) := splitSign r
      if r2 ≠ [] ∧ r2.all isAsciiDigit then
        some ((10 : ℚ) ^ (es * (readDigits r2 : Int)))
      else none
    else none

/-- Python `float(s)` on finite decimal literals: optional sign, digits
with an optional fractional part (at least one digit overall), optional
exponent.  Returns `none` exactly when `float()` raises `ValueError`. -/
def pyFloat (s : List Char) : Option ℚ :=
  let t := pyStrip s
  let (sign, t1) := splitSign t
  let ip := t1.takeWhile isAsciiDigit
  let r1 := t1.dropWhile isAsciiDigit
  match r1 with
  | '.' :: r2 =>
    let fp := r2.takeWhile isAsciiDigit
    let r3 := r2.dropWhile isAsciiDigit
    if ip = [] ∧ fp = [] then none
    else
      (pyFloatExpPart r3).map fun e =>
        (sign : ℚ) * ((readDigits ip : ℚ) + (readDigits fp : ℚ) / 10 ^ fp.length) * e
  | r2 =>
    if ip = [] then none
    else (pyFloatExpPart r2).map fun e => (sign : ℚ) * (readDigits ip : ℚ) * e

/-! ### Exception modeling -/

/-- The one exception class the scraper's numeric conversions can raise
(`IndexError` is impossible at the guarded call sites, see each model). -/
inductive PyErr where
  | valueError
deriving DecidableEq, Repr

instance {ε α : Type} [DecidableEq ε] [DecidableEq α] : DecidableEq (Except ε α) := fun a b =>
  match a, b with
  | .ok x, .ok y =>
    if h : x = y then isTrue (by rw [h]) else isFalse (by intro hh; cases hh; exact h rfl)
  | .error x, .error y =>
    if h : x = y then isTrue (by rw [h]) else isFalse (by intro hh; cases hh; exact h rfl)
  | .ok _, .error _ => isFalse (by intro h; cases h)
  | .error _, .ok _ => isFalse (by intro h; cases h)

/-- `int(s)` as a raising operation. -/
def pyIntE (s : List Char) : Except PyErr Int :=
  match pyInt s with
  | some v => .ok v
  | none => .error .valueError

/-- `float(s)` as a raising operation. -/
def pyFloatE (s : List Char) : Except PyErr ℚ :=
  match pyFloat s with
  | some v => .ok v
  | none => .error .valueError

/-! ### `base_parser.py`: shared value-parsing primitives -/

/-- `re.sub(r'[a-zA-Z]+$', '', s)`: the pattern is anchored at the end, so
on a string with no trailing newline (every call site strips first) the
single possible match is the maximal trailing run of ASCII letters. -/
def dropTrailingAlphaRun (s : List Char) : List Char :=
  (s.reverse.dropWhile isAsciiAlpha).reverse

/-- The `try` block of `BaseParser.parse_time_to_seconds`: the
`if/elif/elif` on the number of `':'`-separated parts; a list of four or
more parts falls through to the final `return None`. -/
def parse_time_attempt (t : List Char) : Except PyErr (Option ℚ) :=
  match splitOnChar ':' t with
  | [p0] => do
    let v ← pyFloatE p0
    return some v
  | [p0, p1] => do
    let m ← pyIntE p0
    let sec ← pyFloatE p1
    return some ((m : ℚ) * 60 + sec)
  | [p0, p1, p2] => do
    let h ← pyIntE p0
    let m ← pyIntE p1
    let sec ← pyFloatE p2
    return some ((h : ℚ) * 3600 + (m : ℚ) * 60 + sec)
  | _ => .ok none

/-- `BaseParser.parse_time_to_seconds`.  `int()`/`float()` raise only
`ValueError`, the `parts` indexing is guarded by the arity match, and the
whole conversion sits in `try/except (ValueError, IndexError)`, modeled
by mapping the error of the attempt to `None`. -/
def parse_time_to_seconds (time_str : List Char) : Except PyErr (Option ℚ) :=
  if time_str = [] then .ok none
  else
    match parse_time_attempt (dropTrailingAlphaRun (pyStrip time_str)) with
    | .error _ => .ok none
    | r => r

/-- Group of `re.match(r'([\d.]+)\s*m', s, re.IGNORECASE)`.  `[\d.]+` is
greedy; backtracking cannot help because every character it could give
back is a digit or dot, which neither `\s*` nor `m` accepts, so the match
succeeds iff the maximal `[\d.]` prefix run is non-empty and is followed,
after optional whitespace, by `m`/`M`. -/
def metersGroup (s : List Char) : Option (List Char) :=
  let g := s.takeWhile fun c => isAsciiDigit c || c == '.'
  let r := s.dropWhile fun c => isAsciiDigit c || c == '.'
  match g, r.dropWhile isPySpace with
  | [], _ => none
  | _, c :: _ => if pyLowerChar c = 'm' then some g else none
  | _, [] => none

/-- Groups of `re.match(r"(\d+)['\-]\s*(\d+(?:\.\d+)?)[\"']?", s)`.
All runs are over pairwise-disjoint character sets followed by a
character outside the set, so greedy matching is deterministic; the
optional `(?:\.\d+)?` needs a dot followed by at least one digit; the
trailing `[\"']?` constrains nothing. -/
def feetInchesGroups (s : List Char) : Option (List Char × List Char) :=
  let f := s.takeWhile isAsciiDigit
  let r := s.dropWhile isAsciiDigit
  if f = [] then none
  else
    match r with
    | c :: r1 =>
      if c = '\'' ∨ c = '-' then
        let r2 := r1.dropWhile isPySpace
        let i1 := r2.takeWhile isAsciiDigit
        let r3 := r2.dropWhile isAsciiDigit
        if i1 = [] then none
        else
          match r3 with
          | '.' :: r4 =>
            let i2 := r4.takeWhile isAsciiDigit
            if i2 = [] then some (f, i1) else some (f, i1 ++ '.' :: i2)
          | _ => some (f, i1)
      else none
    | [] => none

/-- `BaseParser.parse_distance_to_meters`.  The `float()` on the meters
group and the `int()`/`float()` on the feet/inches groups are *not*
inside a `try` block, so their errors propagate (the feet/inches groups
are digit-shaped and never fail; the meters group can); only the final
bare-number conversion is guarded by `try/except ValueError`. -/
def parse_distance_to_meters (distance_str : List Char) : Except PyErr (Option ℚ) :=
  if distance_str = [] then .ok none
  else
    let d := pyStrip distance_str
    match metersGroup d with
    | some g => do
      let v ← pyFloatE g
      return some v
    | none =>
      match feetInchesGroups d with
      | some (f, i) => do
        let ft ← pyIntE f
        let inch ← pyFloatE i
        return some ((ft : ℚ) * 0.3048 + inch * 0.0254)
      | none =>
        match pyFloat d with
        | some v => .ok (some v)
        | none => .ok none

/-- `re.sub(r'm/s$', '', s, flags=re.IGNORECASE)` on a stripped string:
drop a trailing `m/s` (case-insensitively). -/
def dropMsSuffix (s : List Char) : List Char :=
  let n := s.length
  if 3 ≤ n ∧ pyLower (s.drop (n - 3)) = ['m', '/', 's'] then s.take (n - 3) else s

/-- `re.sub(r'^[wW]:', '', s)`: drop one leading `w:`/`W:`. -/
def dropWindColon (w : List Char) : List Char :=
  match w with
  | 'w' :: ':' :: r => r
  | 'W' :: ':' :: r => r
  | _ => w

/-- `BaseParser.parse_wind`: strip a `w:`/`W:` decoration and a trailing
`m/s`, then `float()` inside `try/except ValueError`. -/
def parse_wind (wind_str : List Char) : Except PyErr (Option ℚ) :=
  if wind_str = [] then .ok none
  else
    match pyFloat (dropMsSuffix (dropWindColon (pyStrip wind_str))) with
    | some v => .ok (some v)
    | none => .ok none

/-- C1: the claim says the three shared value-parsing primitives are
total (they return a parsed value or `None` and never raise).  This is
true of `parse_time_to_seconds` and `parse_wind`, whose conversions are
all guarded by `try/except`, but false of `parse_distance_to_meters`:
on the input `".m"` the meters pattern `([\d.]+)\s*m` matches with group
`"."`, and the unguarded `float(".")` raises `ValueError`.  This theorem
records the failing evaluation together with the totality of the other
two primitives; the code contradicts the evident intent (every sibling
conversion site is wrapped in `try/except`). -/
theorem C1_distance_parser_can_raise :
    parse_distance_to_meters ".m".data = .error PyErr.valueError
    ∧ (∀ s : List Char, ∃ v, parse_time_to_seconds s = .ok v)
    ∧ (∀ s : List Char, ∃ v, parse_wind s = .ok v) := by
  refine ⟨?_, ?_, ?_⟩
  · simp +decide [parse_distance_to_meters, pyStrip, pyLStrip, pyRStrip, metersGroup,
      feetInchesGroups, pyFloatE, pyFloat, pyIntE, pyInt, pyFloatExpPart, splitSign,
      readDigits, digitVal, dropTrailingAlphaRun, Bind.bind, Except.bind, Pure.pure, Except.pure]
  · intro s
    unfold parse_time_to_seconds
    by_cases h : s = []
    · exact ⟨none, by simp [h]⟩
    · simp only [h, if_false]
      cases parse_time_attempt (dropTrailingAlphaRun (pyStrip s)) with
      | error e => exact ⟨none, rfl⟩
      | ok v => exact ⟨v, rfl⟩
  · intro s
    unfold parse_wind
    by_cases h : s = []
    · exact ⟨none, by simp [h]⟩
    · simp only [h, if_false]
      cases pyFloat (dropMsSuffix (dropWindColon (pyStrip s))) with
      | none => exact ⟨none, rfl⟩
      | some v => exact ⟨some v, rfl⟩

/-- C6 (counterexample): the claim glosses `45*0.3048 + 6.5*0.0254` as
"about 13.886 meters, within 0.001", but the formula evaluates to
exactly 13.8811 m, which is 0.0049 away from 13.886. -/
theorem C6_counterexample :
    parse_distance_to_meters "45-06.50".data = .ok (some (138811 / 10000 : ℚ))
    ∧ ¬ |(138811 / 10000 : ℚ) - 13.886| ≤ 0.001 := by
  constructor
  · simp +decide [parse_distance_to_meters, pyStrip, pyLStrip, pyRStrip, metersGroup,
      feetInchesGroups, pyFloatE, pyFloat, pyIntE, pyInt, pyFloatExpPart, splitSign,
      readDigits, digitVal, dropTrailingAlphaRun, Bind.bind, Except.bind, Pure.pure, Except.pure]
    norm_num
  · rw [show (138811 / 10000 : ℚ) - 13.886 = -(49 / 10000) by norm_num, abs_neg,
      abs_of_nonneg (by norm_num)]
    norm_num

/-- C6 (amended): `parse_distance_to_meters` maps `"45-06.50"` to exactly
`45*0.3048 + 6.5*0.0254` = 13.8811 m (about 13.881, within 0.001), maps
`"13.87m"` to 13.87, and maps the bare number `"13.87"` to 13.87. -/
theorem C6_distance_parser_values :
    parse_distance_to_meters "45-06.50".data = .ok (some (45 * 0.3048 + 6.5 * 0.0254 : ℚ))
    ∧ |(45 * 0.3048 + 6.5 * 0.0254 : ℚ) - 13.881| ≤ 0.001
    ∧ parse_distance_to_meters "13.87m".data = .ok (some (13.87 : ℚ))
    ∧ parse_distance_to_meters "13.87".data = .ok (some (13.87 : ℚ)) := by
  refine ⟨?_, ?_, ?_, ?_⟩
  · simp +decide [parse_distance_to_meters, pyStrip, pyLStrip, pyRStrip, metersGroup,
      feetInchesGroups, pyFloatE, pyFloat, pyIntE, pyInt, pyFloatExpPart, splitSign,
      readDigits, digitVal, dropTrailingAlphaRun, Bind.bind, Except.bind, Pure.pure, Except.pure]
    norm_num
  · rw [show (45 * 0.3048 + 6.5 * 0.0254 : ℚ) - 13.881 = 1 / 10000 by norm_num,
      abs_of_nonneg (by norm_num)]
    norm_num
  · simp +decide [parse_distance_to_meters, pyStrip, pyLStrip, pyRStrip, metersGroup,
      feetInchesGroups, pyFloatE, pyFloat, pyIntE, pyInt, pyFloatExpPart, splitSign,
      readDigits, digitVal, dropTrailingAlphaRun, Bind.bind, Except.bind, Pure.pure, Except.pure]
    norm_num
  · simp +decide [parse_distance_to_meters, pyStrip, pyLStrip, pyRStrip, metersGroup,
      feetInchesGroups, pyFloatE, pyFloat, pyIntE, pyInt, pyFloatExpPart, splitSign,
      readDigits, digitVal, dropTrailingAlphaRun, Bind.bind, Except.bind, Pure.pure, Except.pure]
    norm_num

/-! ### C7: the spec's `M:SS.ss` time formatter and its support lemmas -/

/-- The decimal digit characters of `n`, most significant first, as
Python formats a natural number. -/
def natDigitChars (n : ℕ) : List Char :=
  if n = 0 then ['0'] else (Nat.digits 10 n).reverse.map Nat.digitChar

/-- Two-digit zero-padded decimal field (for arguments below 100). -/
def pad2 (n : ℕ) : List Char := [Nat.digitChar (n / 10), Nat.digitChar (n % 10)]

/-- Modelled from the spec: the source has no time formatter, so §8's
"formatting `s` as `M:SS.ss`" is modeled as minutes, `':'`, zero-padded
seconds and two decimals, after rounding `s` to the nearest hundredth. -/
def formatTimeMSS (s : ℚ) : List Char :=
  let h : ℕ := (⌊100 * s + 1 / 2⌋).toNat
  natDigitChars (h / 6000) ++ ':' :: (pad2 (h % 6000 / 100) ++ '.' :: pad2 (h % 100))

theorem digitChar_isDigit {d : ℕ} (h : d < 10) : isAsciiDigit (Nat.digitChar d) = true := by
  interval_cases d <;> decide

theorem digitVal_digitChar {d : ℕ} (h : d < 10) : digitVal (Nat.digitChar d) = d := by
  interval_cases d <;> decide

theorem digit_char_facts {c : Char} (h : isAsciiDigit c = true) :
    isPySpace c = false ∧ isAsciiAlpha c = false ∧ c ≠ ':' ∧ c ≠ '+' ∧ c ≠ '-' := by
  simp only [isAsciiDigit, Bool.and_eq_true, decide_eq_true_eq] at h
  refine ⟨?_, ?_, ?_, ?_, ?_⟩
  · simp only [isPySpace, Bool.or_eq_false_iff, decide_eq_false_iff_not]
    omega
  · simp only [isAsciiAlpha, isAsciiLower, isAsciiUpper, Bool.or_eq_false_iff,
      Bool.and_eq_false_iff, decide_eq_false_iff_not]
    omega
  · intro hc; subst hc; exact absurd h (by decide)
  · intro hc; subst hc; exact absurd h (by decide)
  · intro hc; subst hc; exact absurd h (by decide)

theorem natDigitChars_digits (n : ℕ) : ∀ c ∈ natDigitChars n, isAsciiDigit c = true := by
  intro c hc
  unfold natDigitChars at hc
  by_cases h : n = 0
  · simp [h] at hc; subst hc; decide
  · simp only [h, if_false, List.mem_map, List.mem_reverse] at hc
    obtain ⟨d, hd, rfl⟩ := hc
    exact digitChar_isDigit (Nat.digits_lt_base (by norm_num) hd)

theorem natDigitChars_ne_nil (n : ℕ) : natDigitChars n ≠ [] := by
  unfold natDigitChars
  by_cases h : n = 0
  · simp [h]
  · simp only [h, if_false, ne_eq, List.map_eq_nil_iff, List.reverse_eq_nil_iff]
    exact Nat.digits_ne_nil_iff_ne_zero.mpr h

theorem pad2_digits {n : ℕ} (h : n < 100) : ∀ c ∈ pad2 n, isAsciiDigit c = true := by
  intro c hc
  simp only [pad2, List.mem_cons, List.not_mem_nil, or_false] at hc
  rcases hc with hc | hc
  · exact hc ▸ digitChar_isDigit (by omega)
  · exact hc ▸ digitChar_isDigit (Nat.mod_lt _ (by norm_num))

theorem readDigits_aux (L : List ℕ) (hL : ∀ d ∈ L, d < 10) (a : ℕ) :
    (L.reverse.map Nat.digitChar).foldl (fun x c => 10 * x + digitVal c) a =
      a * 10 ^ L.length + Nat.ofDigits 10 L := by
  induction L generalizing a with
  | nil => simp
  | cons d ds ih =>
    have hd : d < 10 := hL d (List.mem_cons_self d ds)
    have hds : ∀ x ∈ ds, x < 10 := fun x hx => hL x (List.mem_cons_of_mem d hx)
    simp only [List.reverse_cons, List.map_append, List.map_cons, List.map_nil]
    rw [List.foldl_append, ih hds a]
    simp only [List.foldl_cons, List.foldl_nil, Nat.ofDigits_cons, List.length_cons,
      digitVal_digitChar hd]
    ring

theorem readDigits_natDigitChars (n : ℕ) : readDigits (natDigitChars n) = n := by
  unfold readDigits natDigitChars
  by_cases h : n = 0
  · simp [h, digitVal]
  · simp only [h, if_false]
    rw [readDigits_aux _ (fun d hd => Nat.digits_lt_base (by norm_num) hd) 0]
    simp [Nat.ofDigits_digits]

theorem readDigits_pad2 {n : ℕ} (h : n < 100) : readDigits (pad2 n) = n := by
  unfold readDigits pad2
  simp only [List.foldl_cons, List.foldl_nil]
  rw [digitVal_digitChar (by omega), digitVal_digitChar (Nat.mod_lt _ (by norm_num))]
  omega

theorem dropWhile_eq_self_of_none {p : Char → Bool} {l : List Char}
    (h : ∀ c ∈ l, p c = false) : l.dropWhile p = l := by
  cases l with
  | nil => rfl
  | cons c cs => simp [List.dropWhile_cons, h c (List.mem_cons_self c cs)]

theorem takeWhile_eq_self_of_all {p : Char → Bool} {l : List Char}
    (h : ∀ c ∈ l, p c = true) : l.takeWhile p = l := by
  induction l with
  | nil => rfl
  | cons c cs ih =>
    simp only [List.takeWhile_cons, h c (List.mem_cons_self c cs), if_true]
    rw [ih fun x hx => h x (List.mem_cons_of_mem c hx)]

theorem pyStrip_eq_self {l : List Char} (h : ∀ c ∈ l, isPySpace c = false) :
    pyStrip l = l := by
  unfold pyStrip pyLStrip pyRStrip
  rw [dropWhile_eq_self_of_none h,
    dropWhile_eq_self_of_none (fun c hc => h c (List.mem_reverse.mp hc)), List.reverse_reverse]

theorem dropTrailingAlphaRun_eq_self {l : List Char} (h : ∀ c ∈ l, isAsciiAlpha c = false) :
    dropTrailingAlphaRun l = l := by
  unfold dropTrailingAlphaRun
  rw [dropWhile_eq_self_of_none (fun c hc => h c (List.mem_reverse.mp hc)), List.reverse_reverse]

theorem splitOnChar_of_not_mem {sep : Char} {l : List Char} (h : sep ∉ l) :
    splitOnChar sep l = [l] := by
  induction l with
  | nil => rfl
  | cons c cs ih =>
    have hc : c ≠ sep := fun hcs => h (hcs ▸ List.mem_cons_self c cs)
    have hcs : sep ∉ cs := fun hm => h (List.mem_cons_of_mem c hm)
    simp only [splitOnChar, hc, if_false, ih hcs]

theorem splitOnChar_append {sep : Char} {A B : List Char} (hA : sep ∉ A) (hB : sep ∉ B) :
    splitOnChar sep (A ++ sep :: B) = [A, B] := by
  induction A with
  | nil => simp [splitOnChar, splitOnChar_of_not_mem hB]
  | cons c cs ih =>
    have hc : c ≠ sep := fun hcs => hA (hcs ▸ List.mem_cons_self c cs)
    have hcs : sep ∉ cs := fun hm => hA (List.mem_cons_of_mem c hm)
    simp only [List.cons_append, splitOnChar, hc, if_false, List.append_eq, ih hcs]

theorem takeWhile_append_stop {p : Char → Bool} {A : List Char} {c : Char} {B : List Char}
    (hA : ∀ x ∈ A, p x = true) (hc : p c = false) :
    (A ++ c :: B).takeWhile p = A ∧ (A ++ c :: B).dropWhile p = c :: B := by
  induction A with
  | nil => simp [List.takeWhile_cons, List.dropWhile_cons, hc]
  | cons a as ih =>
    have ha : p a = true := hA a (List.mem_cons_self a as)
    have has : ∀ x ∈ as, p x = true := fun x hx => hA x (List.mem_cons_of_mem a hx)
    obtain ⟨h1, h2⟩ := ih has
    constructor
    · simp [List.takeWhile_cons, ha, h1]
    · simp [List.dropWhile_cons, ha, h2]

theorem splitSign_no_sign {c : Char} {r : List Char} (h1 : c ≠ '+') (h2 : c ≠ '-') :
    splitSign (c :: r) = (1, c :: r) := by
  simp [splitSign, h1, h2]

theorem splitSign_of_digit {l : List Char} (h : ∀ c ∈ l, isAsciiDigit c = true)
    (hne : l ≠ []) : splitSign l = (1, l) := by
  cases l with
  | nil => exact absurd rfl hne
  | cons c cs =>
    have := digit_char_facts (h c (List.mem_cons_self c cs))
    exact splitSign_no_sign this.2.2.2.1 this.2.2.2.2

/-- `float()` of a `DD.dd` two-digit zero-padded field pair. -/
theorem pyFloat_pad2_pair {a b : ℕ} (ha : a < 100) (hb : b < 100) :
    pyFloat (pad2 a ++ '.' :: pad2 b) = some ((a : ℚ) + (b : ℚ) / 100) := by
  have hAdig : ∀ c ∈ pad2 a, isAsciiDigit c = true := pad2_digits ha
  have hBdig : ∀ c ∈ pad2 b, isAsciiDigit c = true := pad2_digits hb
  have hdig : ∀ c ∈ pad2 a ++ '.' :: pad2 b, isPySpace c = false := by
    intro c hc
    rcases List.mem_append.mp hc with h | h
    · exact (digit_char_facts (hAdig c h)).1
    · rcases List.mem_cons.mp h with h | h
      · subst h; decide
      · exact (digit_char_facts (hBdig c h)).1
  have hne : pad2 a ++ '.' :: pad2 b ≠ [] := by simp [pad2]
  have hhead : ∀ c ∈ pad2 a ++ '.' :: pad2 b, c = '.' ∨ isAsciiDigit c = true := by
    intro c hc
    rcases List.mem_append.mp hc with h | h
    · exact Or.inr (hAdig c h)
    · rcases List.mem_cons.mp h with h | h
      · exact Or.inl h
      · exact Or.inr (hBdig c h)
  unfold pyFloat
  rw [pyStrip_eq_self hdig]
  have hsign : splitSign (pad2 a ++ '.' :: pad2 b) = (1, pad2 a ++ '.' :: pad2 b) := by
    have h0 : (pad2 a).headI ∈ pad2 a := by simp [pad2]
    cases hp : pad2 a with
    | nil => simp [pad2] at hp
    | cons c cs =>
      have hcdig : isAsciiDigit c = true := hAdig c (by simp [hp])
      have := digit_char_facts hcdig
      simpa [hp] using splitSign_no_sign this.2.2.2.1 this.2.2.2.2
  simp only [hsign]
  obtain ⟨htake, hdrop⟩ :=
    @takeWhile_append_stop isAsciiDigit _ '.' (pad2 b) hAdig (show isAsciiDigit '.' = false by decide)
  simp only [htake, hdrop]
  rw [takeWhile_eq_self_of_all hBdig,
    (List.dropWhile_eq_nil_iff).mpr (fun c hc => by simp [hBdig c hc])]
  have hlen : (pad2 b).length = 2 := by simp [pad2]
  simp only [pyFloatExpPart, Option.map_some']
  have hta : (pad2 a) ≠ [] := by simp [pad2]
  simp only [show ¬(pad2 a = [] ∧ pad2 b = []) from fun h => hta h.1, if_false]
  rw [show readDigits (pad2 a) = a from readDigits_pad2 ha,
    show readDigits (pad2 b) = b from readDigits_pad2 hb, hlen]
  push_cast
  ring_nf

theorem pyInt_natDigitChars (n : ℕ) : pyInt (natDigitChars n) = some (n : ℤ) := by
  have hdig := natDigitChars_digits n
  have hsp : ∀ c ∈ natDigitChars n, isPySpace c = false :=
    fun c hc => (digit_char_facts (hdig c hc)).1
  simp only [pyInt, pyStrip_eq_self hsp, splitSign_of_digit hdig (natDigitChars_ne_nil n)]
  rw [if_pos ⟨natDigitChars_ne_nil n, List.all_eq_true.mpr fun c hc => hdig c hc⟩]
  rw [readDigits_natDigitChars]
  simp

/-- Parsing the formatted `M:SS.ss` string recovers the rounded
hundredths value exactly. -/
theorem parse_time_formatTimeMSS (s : ℚ) :
    parse_time_to_seconds (formatTimeMSS s) =
      .ok (some (((⌊100 * s + 1 / 2⌋.toNat : ℕ) : ℚ) / 100)) := by
  unfold formatTimeMSS
  set h : ℕ := ⌊100 * s + 1 / 2⌋.toNat with hh
  set M : ℕ := h / 6000 with hM
  set a : ℕ := h % 6000 / 100 with ha
  set b : ℕ := h % 100 with hb
  have ha100 : a < 100 := by
    have : h % 6000 < 6000 := Nat.mod_lt _ (by norm_num)
    omega
  have hb100 : b < 100 := by
    have : h % 100 < 100 := Nat.mod_lt _ (by norm_num)
    omega
  have hMdig := natDigitChars_digits M
  have hAdig := pad2_digits ha100
  have hBdig := pad2_digits hb100
  -- character inventory of the formatted string
  have hchars : ∀ c ∈ natDigitChars M ++ ':' :: (pad2 a ++ '.' :: pad2 b),
      isAsciiDigit c = true ∨ c = ':' ∨ c = '.' := by
    intro c hc
    rcases List.mem_append.mp hc with hx | hx
    · exact Or.inl (hMdig c hx)
    · rcases List.mem_cons.mp hx with hx | hx
      · exact Or.inr (Or.inl hx)
      · rcases List.mem_append.mp hx with hy | hy
        · exact Or.inl (hAdig c hy)
        · rcases List.mem_cons.mp hy with hy | hy
          · exact Or.inr (Or.inr hy)
          · exact Or.inl (hBdig c hy)
  have hsp : ∀ c ∈ natDigitChars M ++ ':' :: (pad2 a ++ '.' :: pad2 b), isPySpace c = false := by
    intro c hc
    rcases hchars c hc with hx | hx | hx
    · exact (digit_char_facts hx).1
    · subst hx; decide
    · subst hx; decide
  have halpha : ∀ c ∈ natDigitChars M ++ ':' :: (pad2 a ++ '.' :: pad2 b),
      isAsciiAlpha c = false := by
    intro c hc
    rcases hchars c hc with hx | hx | hx
    · exact (digit_char_facts hx).2.1
    · subst hx; decide
    · subst hx; decide
  have hne : natDigitChars M ++ ':' :: (pad2 a ++ '.' :: pad2 b) ≠ [] := by
    simp [natDigitChars_ne_nil M]
  have hsplit : splitOnChar ':' (natDigitChars M ++ ':' :: (pad2 a ++ '.' :: pad2 b)) =
      [natDigitChars M, pad2 a ++ '.' :: pad2 b] := by
    refine splitOnChar_append ?_ ?_
    · intro hmem
      exact absurd rfl (digit_char_facts (hMdig _ hmem)).2.2.1
    · intro hmem
      rcases List.mem_append.mp hmem with hx | hx
      · exact absurd rfl (digit_char_facts (hAdig _ hx)).2.2.1
      · rcases List.mem_cons.mp hx with hx | hx
        · cases hx
        · exact absurd rfl (digit_char_facts (hBdig _ hx)).2.2.1
  unfold parse_time_to_seconds
  rw [if_neg hne, pyStrip_eq_self hsp, dropTrailingAlphaRun_eq_self halpha]
  unfold parse_time_attempt
  rw [hsplit]
  simp only [pyIntE, pyInt_natDigitChars M, pyFloatE, pyFloat_pad2_pair ha100 hb100,
    Bind.bind, Except.bind, Pure.pure, Except.pure]
  -- arithmetic: 60*M + a + b/100 = h/100
  have key : 6000 * M + 100 * a + b = h := by
    have h1 : h % 6000 % 100 = h % 100 := Nat.mod_mod_of_dvd h (by norm_num)
    have h2 : 100 * (h % 6000 / 100) + h % 6000 % 100 = h % 6000 := Nat.div_add_mod _ _
    have h3 : 6000 * (h / 6000) + h % 6000 = h := Nat.div_add_mod _ _
    omega
  have : (((M : ℤ) : ℚ) * 60 + ((a : ℚ) + (b : ℚ) / 100)) = (h : ℚ) / 100 := by
    have hq : ((6000 * M + 100 * a + b : ℕ) : ℚ) = (h : ℚ) := by exact_mod_cast key
    push_cast at hq ⊢
    linarith
  rw [this]

/-- C7: time-parser round trip.  For every seconds value `s` in
`[0, 5999.99]`, formatting `s` in the `M:SS.ss` form (spec-modelled
formatter: the source has no formatter) and applying
`parse_time_to_seconds` yields a value within 0.01 of `s`. -/
theorem C7_time_roundtrip (s : ℚ) (h0 : 0 ≤ s) (h1 : s ≤ 5999.99) :
    ∃ v : ℚ, parse_time_to_seconds (formatTimeMSS s) = .ok (some v) ∧ |v - s| ≤ 1 / 100 := by
  refine ⟨_, parse_time_formatTimeMSS s, ?_⟩
  have hz0 : (0 : ℤ) ≤ ⌊100 * s + 1 / 2⌋ := Int.floor_nonneg.mpr (by linarith)
  have hcast : ((⌊100 * s + 1 / 2⌋.toNat : ℕ) : ℚ) = ((⌊100 * s + 1 / 2⌋ : ℤ) : ℚ) := by
    exact_mod_cast Int.toNat_of_nonneg hz0
  rw [hcast]
  have hle : ((⌊100 * s + 1 / 2⌋ : ℤ) : ℚ) ≤ 100 * s + 1 / 2 := Int.floor_le _
  have hgt : 100 * s + 1 / 2 < ((⌊100 * s + 1 / 2⌋ : ℤ) : ℚ) + 1 := Int.lt_floor_add_one _
  rw [abs_le]
  constructor <;> linarith

/-- Witness for C7 at `s = 83.2` (formatted `"1:23.20"`). -/
theorem C7_time_roundtrip_witness :
    ∃ v : ℚ, parse_time_to_seconds (formatTimeMSS 83.2) = .ok (some v) ∧ |v - 83.2| ≤ 1 / 100 :=
  C7_time_roundtrip 83.2 (by norm_num) (by norm_num)

/-! ### `rapidfuzz` scorers -/

/-- One Wagner-Fischer row update for the indel distance (insertions and
deletions cost 1, substitution forbidden): walking `ys` with the tail of
the previous row, carrying the diagonal and left entries. -/
def indelRowAux (x : Char) : List Char → List ℕ → ℕ → ℕ → List ℕ
  | [], _, _, _ => []
  | _, [], _, _ => []
  | y :: ys, p :: ps, diag, left =>
    let cur := if x = y then diag else min left p + 1
    cur :: indelRowAux x ys ps p cur

/-- Indel (longest-common-subsequence) edit distance, the metric behind
`rapidfuzz`'s `fuzz.ratio`. -/
def indelDist (xs ys : List Char) : ℕ :=
  let row0 := List.range (ys.length + 1)
  let final := xs.foldl (fun row x =>
    match row with
    | [] => []
    | p0 :: ps => (p0 + 1) :: indelRowAux x ys ps p0 (p0 + 1)) row0
  final.getLastD 0

/-- `fuzz.ratio`: normalized indel similarity on the 0-100 scale
(100 for two empty strings). -/
def fuzz_ratio (s1 s2 : List Char) : ℚ :=
  if s1.length + s2.length = 0 then 100
  else 100 * (1 - (indelDist s1 s2 : ℚ) / ((s1.length + s2.length : ℕ) : ℚ))

/-- `fuzz.partial_ratio`: the best `fuzz.ratio` alignment of the shorter
string against the contiguous substrings of the longer one (100 when the
shorter string is empty, as in `rapidfuzz`). -/
def partRatio (s1 s2 : List Char) : ℚ :=
  let p := if s1.length ≤ s2.length then (s1, s2) else (s2, s1)
  ((p.2.tails.flatMap List.inits).map (fuzz_ratio p.1)).foldl max 0

/-! ### `school_matcher.py` -/

/-- The data `SchoolMatcher.__init__` reads from `schools.yaml`. -/
structure SchoolConfig where
  target_aliases : List (List Char)
  match_threshold : Option ℚ
  exclude_schools : List (List (List Char))

/-- The constructed matcher state: lowercased target aliases, threshold
defaulted to 80, the excluded schools' alias lists lowercased and
flattened in order. -/
structure SchoolMatcher where
  target_aliases : List (List Char)
  threshold : ℚ
  excluded_aliases : List (List Char)

/-- `SchoolMatcher.__init__`. -/
def SchoolMatcher.ofConfig (cfg : SchoolConfig) : SchoolMatcher where
  target_aliases := cfg.target_aliases.map pyLower
  threshold := cfg.match_threshold.getD 80
  excluded_aliases := (cfg.exclude_schools.map fun s => s.map pyLower).flatten

/-- One iteration of the exclusion loop: full similarity at least 85, or
a literal substring with partial similarity at least 90. -/
def excludedHit (school_lower excluded : List Char) : Bool :=
  decide (85 ≤ fuzz_ratio school_lower excluded) ||
    (strContains school_lower excluded && decide (90 ≤ partRatio school_lower excluded))

/-- One iteration of the target loop: full similarity at least the
threshold, or partial similarity at least 90 with input length at least
4 (the "FC" guard). -/
def targetHit (threshold : ℚ) (school_lower al : List Char) : Bool :=
  decide (threshold ≤ fuzz_ratio school_lower al) ||
    (decide (90 ≤ partRatio school_lower al) && decide (4 ≤ school_lower.length))

/-- `SchoolMatcher.is_target_school`, in the source's strict order:
falsy guard, exact alias membership, exclusion loop, target loop. -/
def SchoolMatcher.is_target_school (m : SchoolMatcher) (school_name : List Char) : Bool :=
  if school_name = [] then false
  else
    let school_lower := pyStrip (pyLower school_name)
    if school_lower ∈ m.target_aliases then true
    else if m.excluded_aliases.any (excludedHit school_lower) then false
    else m.target_aliases.any (targetHit m.threshold school_lower)

/-- C4: an affiliation string whose lowercased, trimmed form equals one
of the target school's aliases (case-insensitively) is accepted
regardless of the exclusion list: the exact-match step short-circuits
all exclusion logic.  (The `if not school_name` falsy guard makes the
empty string the one exception, so the input is required non-empty.) -/
theorem C4_exact_alias_short_circuit (cfg : SchoolConfig) (s : List Char)
    (hmem : pyStrip (pyLower s) ∈ cfg.target_aliases.map pyLower) (hs : s ≠ []) :
    (SchoolMatcher.ofConfig cfg).is_target_school s = true := by
  unfold SchoolMatcher.is_target_school
  rw [if_neg hs, if_pos]
  exact hmem

/-- Witness for C4: the generic alias "Fort Collins" is accepted even
though the excluded "Fort Collins Christian" is a near-superstring. -/
theorem C4_exact_alias_short_circuit_witness :
    (SchoolMatcher.ofConfig
      { target_aliases := ["Fort Collins".data, "FCHS".data]
        match_threshold := none
        exclude_schools := [["Fort Collins Christian".data]] }).is_target_school
      "Fort Collins".data = true :=
  C4_exact_alias_short_circuit _ _ (by decide) (by decide)

/-- C8: a short affiliation string (fewer than 4 characters after
lowercasing and trimming) that is not an exact target alias can be
accepted only through full-string similarity reaching the threshold:
the partial-ratio branch is disabled by the length guard. -/
theorem C8_short_input_needs_full_similarity (cfg : SchoolConfig) (s : List Char)
    (hlen : (pyStrip (pyLower s)).length < 4)
    (hnot : pyStrip (pyLower s) ∉ (SchoolMatcher.ofConfig cfg).target_aliases) :
    (SchoolMatcher.ofConfig cfg).is_target_school s = true →
      ∃ a ∈ (SchoolMatcher.ofConfig cfg).target_aliases,
        (SchoolMatcher.ofConfig cfg).threshold ≤ fuzz_ratio (pyStrip (pyLower s)) a := by
  intro htrue
  unfold SchoolMatcher.is_target_school at htrue
  by_cases hs : s = []
  · rw [if_pos hs] at htrue; cases htrue
  rw [if_neg hs, if_neg hnot] at htrue
  by_cases hex :
      (SchoolMatcher.ofConfig cfg).excluded_aliases.any
        (excludedHit (pyStrip (pyLower s))) = true
  · rw [if_pos hex] at htrue; cases htrue
  rw [if_neg hex] at htrue
  obtain ⟨a, ha, hhit⟩ := List.any_eq_true.mp htrue
  refine ⟨a, ha, ?_⟩
  unfold targetHit at hhit
  rcases Bool.or_eq_true_iff.mp hhit with h | h
  · exact of_decide_eq_true h
  · have := (Bool.and_eq_true_iff.mp h).2
    have h4 : 4 ≤ (pyStrip (pyLower s)).length := of_decide_eq_true this
    omega

/-- Witness for C8 at the three-letter abbreviation "FCh": it is
accepted, and indeed via full-string similarity against an alias
("fchs", ratio 600/7 >= 80). -/
theorem C8_short_input_needs_full_similarity_witness :
    (pyStrip (pyLower "FCh".data)).length < 4 ∧
    ∃ a ∈ (SchoolMatcher.ofConfig
        { target_aliases := ["Fort Collins".data, "FCHS".data]
          match_threshold := none
          exclude_schools := [["Fort Collins Christian".data]] }).target_aliases,
      (SchoolMatcher.ofConfig
        { target_aliases := ["Fort Collins".data, "FCHS".data]
          match_threshold := none
          exclude_schools := [["Fort Collins Christian".data]] }).threshold ≤
        fuzz_ratio (pyStrip (pyLower "FCh".data)) a := by
  refine ⟨by decide, ?_⟩
  exact C8_short_input_needs_full_similarity
    { target_aliases := ["Fort Collins".data, "FCHS".data]
      match_threshold := none
      exclude_schools := [["Fort Collins Christian".data]] }
    "FCh".data (by decide) (by decide) (by with_unfolding_all decide)

/-! ### `event_matcher.py` -/

/-- One entry of `canonical_events.yaml`, restricted to the keys
`EventMatcher` reads (`name`, `category`, `gender_specific`, `aliases`;
`gender_specific` is absent for open events). -/
structure EventInfo where
  name : List Char
  category : List Char
  gender_specific : Option (List Char)
  aliases : List (List Char)
deriving DecidableEq, Repr

/-- Python-dict insertion on an association list: an existing key keeps
its position and receives the new value, a new key is appended. -/
def dictInsert (k v : List Char) :
    List (List Char × List Char) → List (List Char × List Char)
  | [] => [(k, v)]
  | (k', v') :: rest =>
    if k' = k then (k, v) :: rest else (k', v') :: dictInsert k v rest

def dictLookup (k : List Char) : List (List Char × List Char) → Option (List Char)
  | [] => none
  | (k', v) :: rest => if k' = k then some v else dictLookup k rest

/-- `EventMatcher.__init__`: for each event, in order, the lowercased
canonical name maps to the canonical name, then each lowercased alias. -/
def buildAliasMap (events : List EventInfo) : List (List Char × List Char) :=
  events.foldl
    (fun m e =>
      e.aliases.foldl (fun m' a => dictInsert (pyLower a) e.name m')
        (dictInsert (pyLower e.name) e.name m))
    []

/-- The matcher state. -/
structure EventMatcher where
  events : List EventInfo
  alias_map : List (List Char × List Char)

def EventMatcher.ofConfig (events : List EventInfo) : EventMatcher where
  events := events
  alias_map := buildAliasMap events

/-- `EventMatcher.get_event_info`: first event with the given name. -/
def get_event_info (m : EventMatcher) (canonical : List Char) : Option EventInfo :=
  m.events.find? fun e => e.name == canonical

/-- Python truthiness of an optional string (`None` and `""` are falsy). -/
def truthyOptStr : Option (List Char) → Bool
  | some s => !s.isEmpty
  | none => false

/-- A matched leading gender word followed by `\s+`: the whole match
(word and the maximal whitespace run) is removed.  `\s+` is greedy and
nothing follows it in the pattern, so the maximal run is the match. -/
def stripAfterWord (w s : List Char) : Option (List Char) :=
  if w.isPrefixOf s then
    match s.drop w.length with
    | c :: rest =>
      if isPySpace c then some ((c :: rest).dropWhile isPySpace) else none
    | [] => none
  else none

/-- `re.sub(r'^(boys?|girls?|mens?|womens?)\s+', '', s)`: the
alternatives in order, each trying the greedy optional `s` first. -/
def stripGenderWord (s : List Char) : List Char :=
  (((((((stripAfterWord "boys".data s).orElse fun _ =>
    stripAfterWord "boy".data s).orElse fun _ =>
    stripAfterWord "girls".data s).orElse fun _ =>
    stripAfterWord "girl".data s).orElse fun _ =>
    stripAfterWord "mens".data s).orElse fun _ =>
    stripAfterWord "men".data s).orElse fun _ =>
    stripAfterWord "womens".data s).orElse (fun _ =>
    stripAfterWord "women".data s) |>.getD s

/-- The end-anchored alternatives of the trailing round-token pattern:
`finals?`, `prelims?`, `preliminaries?`, `heats?` expand to these
literal suffixes. -/
def roundWords : List (List Char) :=
  ["finals".data, "final".data, "prelims".data, "prelim".data,
   "preliminaries".data, "preliminarie".data, "heats".data, "heat".data]

/-- `re.sub(r'\s+(finals?|prelims?|preliminaries?|heats?)$', '', s)`:
the string must end with one of the alternative words immediately
preceded by whitespace; the leftmost match starts at the beginning of
that maximal whitespace run, so the run and the word are removed. -/
def stripRoundSuffix (s : List Char) : List Char :=
  match roundWords.find? (fun w =>
      w.isSuffixOf s &&
        match (s.take (s.length - w.length)).getLast? with
        | some c => isPySpace c
        | none => false) with
  | some w => pyRStrip (s.take (s.length - w.length))
  | none => s

/-- The normalization pipeline of `EventMatcher.match`: lowercase and
strip, remove a leading gender token and a trailing round token, strip
again. -/
def normalize_event_label (event_name : List Char) : List Char :=
  pyStrip (stripRoundSuffix (stripGenderWord (pyStrip (pyLower event_name))))

/-- The scanning step of `process.extractOne`: keep the strictly best
score seen so far, so the first choice reaching the maximum wins. -/
def extractStep (query : List Char) (acc : Option (List Char × ℚ)) (c : List Char) :
    Option (List Char × ℚ) :=
  let sc := fuzz_ratio query c
  match acc with
  | none => some (c, sc)
  | some (b, bs) => if bs < sc then some (c, sc) else some (b, bs)

/-- `process.extractOne(query, choices, scorer=fuzz.ratio,
score_cutoff=75)`: the best-scoring choice, the first among equals,
`none` when nothing reaches the cutoff. -/
def extractOneAlias (query : List Char) (choices : List (List Char)) :
    Option (List Char × ℚ) :=
  match choices.foldl (extractStep query) none with
  | some (b, bs) => if 75 ≤ bs then some (b, bs) else none
  | none => none

/-- The selection fold of `extractOne` either keeps its accumulator or
returns one of the scored choices. -/
theorem extractFold_pick (query : List Char) (l : List (List Char))
    (acc : Option (List Char × ℚ)) :
    l.foldl (extractStep query) acc = acc ∨
      ∃ c ∈ l, l.foldl (extractStep query) acc = some (c, fuzz_ratio query c) := by
  induction l generalizing acc with
  | nil => exact Or.inl rfl
  | cons c rest ih =>
    simp only [List.foldl_cons]
    have hstep : extractStep query acc c = acc ∨
        extractStep query acc c = some (c, fuzz_ratio query c) := by
      cases acc with
      | none => exact Or.inr rfl
      | some p =>
        obtain ⟨b, bs⟩ := p
        unfold extractStep
        dsimp only
        by_cases hlt : bs < fuzz_ratio query c
        · rw [if_pos hlt]; exact Or.inr rfl
        · rw [if_neg hlt]; exact Or.inl rfl
    rcases ih (extractStep query acc c) with h1 | h1
    · rcases hstep with h2 | h2
      · exact Or.inl (by rw [h1, h2])
      · exact Or.inr ⟨c, List.mem_cons_self c rest, by rw [h1, h2]⟩
    · obtain ⟨c', hc', heq⟩ := h1
      exact Or.inr ⟨c', List.mem_cons_of_mem c hc', heq⟩

/-- `extractOne` only returns members of the choice list. -/
theorem extractOneAlias_mem {query : List Char} {choices : List (List Char)}
    {a : List Char} {sc : ℚ} (h : extractOneAlias query choices = some (a, sc)) :
    a ∈ choices := by
  unfold extractOneAlias at h
  rcases extractFold_pick query choices none with h1 | h1
  · rw [h1] at h; cases h
  · obtain ⟨c, hc, heq⟩ := h1
    rw [heq] at h
    dsimp only at h
    by_cases hcut : (75 : ℚ) ≤ fuzz_ratio query c
    · rw [if_pos hcut] at h
      cases h
      exact hc
    · rw [if_neg hcut] at h; cases h

/-- `EventMatcher._find_gender_alternative`: the first event with the
requested gender restriction in the `hurdles` category, provided the
normalized label mentions `hurdle`. -/
def find_gender_alternative (m : EventMatcher) (event_name g : List Char) :
    Option (List Char) :=
  (m.events.find? fun e =>
    e.gender_specific == some g && e.category == "hurdles".data &&
      strContains event_name "hurdle".data).map EventInfo.name

/-- `EventMatcher.match` (named `match_event`; `match` is reserved).
Exact alias lookup returns immediately; the fuzzy path checks the
matched event's gender restriction against a truthy gender hint. -/
def match_event (m : EventMatcher) (event_name : List Char)
    (gender : Option (List Char)) : Option (List Char) :=
  if event_name = [] then none
  else
    let event_lower := normalize_event_label event_name
    match dictLookup event_lower m.alias_map with
    | some canonical => some canonical
    | none =>
      match extractOneAlias event_lower (m.alias_map.map Prod.fst) with
      | some (matched_alias, _) =>
        -- `self.alias_map[matched_alias]` cannot fail: the alias is a key
        let canonical := (dictLookup matched_alias m.alias_map).getD []
        match get_event_info m canonical with
        | some info =>
          if truthyOptStr info.gender_specific then
            match gender with
            | some g =>
              if g ≠ [] ∧ info.gender_specific ≠ some g then
                find_gender_alternative m event_lower g
              else some canonical
            | none => some canonical
          else some canonical
        | none => some canonical
      | none => none

theorem dictLookup_insert {k k' v' : List Char} {m : List (List Char × List Char)}
    {v : List Char} (h : dictLookup k (dictInsert k' v' m) = some v) :
    v = v' ∨ dictLookup k m = some v := by
  induction m with
  | nil =>
    simp only [dictInsert, dictLookup] at h
    by_cases hk : k' = k
    · rw [if_pos hk] at h; exact Or.inl (Option.some.inj h).symm
    · rw [if_neg hk] at h; cases h
  | cons p rest ih =>
    obtain ⟨pk, pv⟩ := p
    simp only [dictInsert] at h
    by_cases hk : pk = k'
    · rw [if_pos hk] at h
      simp only [dictLookup] at h ⊢
      by_cases hkk : k' = k
      · rw [if_pos hkk] at h
        exact Or.inl (Option.some.inj h).symm
      · rw [if_neg hkk] at h
        rw [if_neg (hk ▸ hkk)]
        exact Or.inr h
    · rw [if_neg hk] at h
      simp only [dictLookup] at h ⊢
      by_cases hkk : pk = k
      · rw [if_pos hkk] at h ⊢
        exact Or.inr h
      · rw [if_neg hkk] at h ⊢
        exact ih h

theorem dictLookup_alias_fold {as : List (List Char)} {nm k v : List Char}
    {m : List (List Char × List Char)}
    (h : dictLookup k (as.foldl (fun m' a => dictInsert (pyLower a) nm m') m) = some v) :
    v = nm ∨ dictLookup k m = some v := by
  induction as generalizing m with
  | nil => exact Or.inr h
  | cons a rest ih =>
    simp only [List.foldl_cons] at h
    rcases ih h with h1 | h1
    · exact Or.inl h1
    · exact dictLookup_insert h1

/-- Every value of the alias map is the name of a configured event. -/
theorem buildAliasMap_values {events : List EventInfo} {k v : List Char}
    (h : dictLookup k (buildAliasMap events) = some v) :
    ∃ e ∈ events, e.name = v := by
  suffices H : ∀ (m : List (List Char × List Char)),
      dictLookup k (events.foldl
        (fun m e =>
          e.aliases.foldl (fun m' a => dictInsert (pyLower a) e.name m')
            (dictInsert (pyLower e.name) e.name m)) m) = some v →
      (∃ e ∈ events, e.name = v) ∨ dictLookup k m = some v by
    rcases H [] h with h1 | h1
    · exact h1
    · cases h1
  clear h
  induction events with
  | nil => exact fun m h => Or.inr h
  | cons e rest ih =>
    intro m h
    simp only [List.foldl_cons] at h
    rcases ih _ h with h1 | h1
    · obtain ⟨e', he', hn⟩ := h1
      exact Or.inl ⟨e', List.mem_cons_of_mem e he', hn⟩
    · rcases dictLookup_alias_fold h1 with h2 | h2
      · exact Or.inl ⟨e, List.mem_cons_self e rest, h2.symm⟩
      · rcases dictLookup_insert h2 with h3 | h3
        · exact Or.inl ⟨e, List.mem_cons_self e rest, h3.symm⟩
        · exact Or.inr h3

theorem dictLookup_of_mem_keys {k : List Char} {m : List (List Char × List Char)}
    (h : k ∈ m.map Prod.fst) : ∃ v, dictLookup k m = some v := by
  induction m with
  | nil => cases h
  | cons p rest ih =>
    obtain ⟨pk, pv⟩ := p
    rcases List.mem_cons.mp h with h1 | h1
    · exact ⟨pv, by simp [dictLookup, h1]⟩
    · by_cases hk : pk = k
      · exact ⟨pv, by simp [dictLookup, hk]⟩
      · obtain ⟨v, hv⟩ := ih h1
        exact ⟨v, by simp [dictLookup, hk, hv]⟩

/-- C2 (amended): when the event matcher resolves a label through the
*fuzzy* path (no exact alias hit) with a non-empty gender hint, every
name it returns belongs to a configured event that either carries no
gender restriction or carries the hinted gender: the fuzzy path never
returns a wrong-gender event.  (The exact-alias path returns
immediately, without any gender check; see `C2_counterexample`.) -/
theorem C2_fuzzy_gender_guard (events : List EventInfo) (label g : List Char)
    (hg : g ≠ [])
    (hexact : dictLookup (normalize_event_label label) (buildAliasMap events) = none) :
    ∀ name, match_event (EventMatcher.ofConfig events) label (some g) = some name →
      ∃ e ∈ events, e.name = name ∧
        (truthyOptStr e.gender_specific = false ∨ e.gender_specific = some g) := by
  intro name h
  unfold match_event EventMatcher.ofConfig at h
  by_cases hlbl : label = []
  · rw [if_pos hlbl] at h; cases h
  rw [if_neg hlbl] at h
  simp only at h
  rw [hexact] at h
  cases hex : extractOneAlias (normalize_event_label label)
      ((buildAliasMap events).map Prod.fst) with
  | none => rw [hex] at h; cases h
  | some p =>
    obtain ⟨ma, msc⟩ := p
    rw [hex] at h
    obtain ⟨cv, hcv⟩ := dictLookup_of_mem_keys (extractOneAlias_mem hex)
    simp only [hcv, Option.getD_some] at h
    obtain ⟨e0, he0, he0n⟩ := buildAliasMap_values hcv
    cases hinfo : get_event_info ⟨events, buildAliasMap events⟩ cv with
    | none =>
      exfalso
      have := List.find?_eq_none.mp hinfo e0 he0
      simp [he0n] at this
    | some info =>
      rw [hinfo] at h
      dsimp only at h
      have hinfomem : info ∈ events := List.mem_of_find?_eq_some hinfo
      have hinfoname : info.name = cv := by
        have := List.find?_some hinfo
        simpa using this
      by_cases htruthy : truthyOptStr info.gender_specific = true
      · rw [if_pos htruthy] at h
        by_cases hcond : g ≠ [] ∧ info.gender_specific ≠ some g
        · rw [if_pos hcond] at h
          unfold find_gender_alternative at h
          cases hfind : List.find?
              (fun e => e.gender_specific == some g && e.category == "hurdles".data &&
                strContains (normalize_event_label label) "hurdle".data)
              events with
          | none => rw [hfind] at h; cases h
          | some alt =>
            rw [hfind] at h
            simp only [Option.map_some'] at h
            have haltmem : alt ∈ events := List.mem_of_find?_eq_some hfind
            have halt := List.find?_some hfind
            simp only [Bool.and_eq_true, beq_iff_eq] at halt
            exact ⟨alt, haltmem, Option.some.inj h ▸ rfl, Or.inr halt.1.1⟩
        · rw [if_neg hcond] at h
          have hgs : info.gender_specific = some g := by
            rcases not_and_or.mp hcond with h1 | h1
            · exact absurd hg (not_not.mp (by simpa using h1))
            · exact not_not.mp h1
          exact ⟨info, hinfomem, by rw [hinfoname]; exact Option.some.inj h,
            Or.inr hgs⟩
      · rw [if_neg htruthy] at h
        exact ⟨info, hinfomem, by rw [hinfoname]; exact Option.some.inj h,
          Or.inl (Bool.not_eq_true _ ▸ Bool.of_not_eq_true htruthy)⟩

/-- A two-event hurdles taxonomy in the shape of
`canonical_events.yaml`: the 100m hurdles are girls-only, the 110m
hurdles boys-only. -/
def hurdlesConfig : List EventInfo :=
  [{ name := "100m Hurdles".data, category := "hurdles".data,
     gender_specific := some "F".data, aliases := ["100 hurdles".data] },
   { name := "110m Hurdles".data, category := "hurdles".data,
     gender_specific := some "M".data, aliases := ["110 hurdles".data] }]

/-- C2 (counterexample): the claim is stated for every resolution of a
label to a gender-disagreeing gender-specific event, but the
*exact-alias* path returns immediately without any gender check:
`"100m hurdles"` with hint `M` resolves exactly to the girls-only
`100m Hurdles` even though a gender-appropriate sibling
(`110m Hurdles`) exists. -/
theorem C2_counterexample :
    match_event (EventMatcher.ofConfig hurdlesConfig) "100m hurdles".data
        (some "M".data) = some "100m Hurdles".data
    ∧ (get_event_info (EventMatcher.ofConfig hurdlesConfig) "100m Hurdles".data).map
        EventInfo.gender_specific = some (some "F".data)
    ∧ find_gender_alternative (EventMatcher.ofConfig hurdlesConfig)
        "100m hurdles".data "M".data = some "110m Hurdles".data := by
  refine ⟨?_, ?_, ?_⟩ <;> decide

/-- Witness for C2 (amended): `"100 m hurdles"` has no exact alias, is
fuzzily matched to the girls-only event, and the `M` hint redirects to
`110m Hurdles`. -/
theorem C2_fuzzy_gender_guard_witness :
    ∃ e ∈ hurdlesConfig, e.name = "110m Hurdles".data ∧
      (truthyOptStr e.gender_specific = false ∨ e.gender_specific = some "M".data) := by
  refine C2_fuzzy_gender_guard hurdlesConfig "100 m hurdles".data "M".data
    (by decide) (by decide) "110m Hurdles".data ?_
  with_unfolding_all decide

/-! ### A small backtracking regular-expression engine

The extractor patterns are transcribed into an AST and interpreted by a
backtracking matcher whose result list is ordered exactly like Python
`re`'s backtracking: ordered alternation, greedy (`*`, `+`) and lazy
(`*?`, `+?`) repetition, numbered capturing groups.  The head of the
result list is the match Python returns. -/

/-- Character classes appearing in the extractor patterns. -/
inductive CCls where
  | digit
  | space
  | word
  | any
  | alpha
  | ranges (rs : List (Char × Char)) (extra : List Char)
  | oneOf (cs : List Char)
  | notOneOf (cs : List Char)
deriving Repr, DecidableEq

/-- `\d`, `\s`, `\w` and `.` over the ASCII fragment; `.` does not match
a newline (no `re.DOTALL` in the source). -/
def CCls.test : CCls → Char → Bool
  | .digit, c => isAsciiDigit c
  | .space, c => isPySpace c
  | .word, c => isWordChar c
  | .any, c => c != '\n'
  | .alpha, c => isAsciiAlpha c
  | .ranges rs extra, c => rs.any (fun r => r.1 ≤ c && c ≤ r.2) || extra.contains c
  | .oneOf cs, c => cs.contains c
  | .notOneOf cs, c => !cs.contains c

/-- Pattern AST.  `bos` is the implicit anchoring of `re.match` (and a
`^` without `re.MULTILINE`); `bolM`/`eolM` are `^`/`$` under
`re.MULTILINE`. -/
inductive RE where
  | eps
  | lit (c : Char)
  | cls (k : CCls)
  | seq (a b : RE)
  | alt (a b : RE)
  | starG (a : RE)
  | starL (a : RE)
  | group (n : ℕ) (a : RE)
  | bos
  | bolM
  | eolM
deriving Repr, DecidableEq

def RE.plusG (a : RE) : RE := .seq a (.starG a)

def RE.plusL (a : RE) : RE := .seq a (.starL a)

def RE.optG (a : RE) : RE := .alt a .eps

/-- Sequence a list of patterns. -/
def reSeq (l : List RE) : RE := l.foldr .seq .eps

/-- Ordered alternation of a list of patterns (never used empty). -/
def reAlts : List RE → RE
  | [] => .eps
  | [e] => e
  | e :: rest => .alt e (reAlts rest)

/-- A literal word. -/
def reLits (s : List Char) : RE := reSeq (s.map .lit)

/-- One partial match: the unconsumed suffix, the character just before
it (for `^` under MULTILINE), and the group captures (an index captured
in a later repetition shadows an earlier one, as in Python). -/
structure MRes where
  rest : List Char
  prev : Option Char
  caps : List (ℕ × List Char)
deriving Repr, DecidableEq

/-- The fueled interpreter: all partial matches of `e` against `cs`, in
Python's backtracking preference order.  `ci` lowercases literal
comparisons (`re.IGNORECASE`; the patterns using it have no cased
classes).  The fuel only bounds the recursion depth so that the
definition is structural: every recursive call shrinks the pattern or,
at a repetition, the input, so the depth never exceeds
`(RE.size e + 1) * (cs.length + 2)`, the fuel `reMatches` supplies. -/
def reMatchesF (ci : Bool) : ℕ → RE → Option Char → List Char → List MRes
  | 0, _, _, _ => []
  | _ + 1, .eps, prev, cs => [⟨cs, prev, []⟩]
  | _ + 1, .lit c, _, cs =>
    match cs with
    | [] => []
    | x :: xs =>
      if (if ci then pyLowerChar x = pyLowerChar c else x = c) then [⟨xs, some x, []⟩] else []
  | _ + 1, .cls k, _, cs =>
    match cs with
    | [] => []
    | x :: xs => if k.test x then [⟨xs, some x, []⟩] else []
  | fuel + 1, .seq a b, prev, cs =>
    (reMatchesF ci fuel a prev cs).flatMap fun r1 =>
      (reMatchesF ci fuel b r1.prev r1.rest).map fun r2 =>
        ⟨r2.rest, r2.prev, r2.caps ++ r1.caps⟩
  | fuel + 1, .alt a b, prev, cs =>
    reMatchesF ci fuel a prev cs ++ reMatchesF ci fuel b prev cs
  | fuel + 1, .starG a, prev, cs =>
    ((reMatchesF ci fuel a prev cs).flatMap fun r1 =>
      if r1.rest.length < cs.length then
        (reMatchesF ci fuel (.starG a) r1.prev r1.rest).map fun r2 =>
          ⟨r2.rest, r2.prev, r2.caps ++ r1.caps⟩
      else []) ++ [⟨cs, prev, []⟩]
  | fuel + 1, .starL a, prev, cs =>
    ⟨cs, prev, []⟩ :: ((reMatchesF ci fuel a prev cs).flatMap fun r1 =>
      if r1.rest.length < cs.length then
        (reMatchesF ci fuel (.starL a) r1.prev r1.rest).map fun r2 =>
          ⟨r2.rest, r2.prev, r2.caps ++ r1.caps⟩
      else [])
  | fuel + 1, .group n a, prev, cs =>
    (reMatchesF ci fuel a prev cs).map fun r =>
      ⟨r.rest, r.prev, (n, cs.take (cs.length - r.rest.length)) :: r.caps⟩
  | _ + 1, .bos, prev, cs => if prev = none then [⟨cs, prev, []⟩] else []
  | _ + 1, .bolM, prev, cs => if prev = none ∨ prev = some '\n' then [⟨cs, prev, []⟩] else []
  | _ + 1, .eolM, prev, cs =>
    match cs with
    | [] => [⟨[], prev, []⟩]
    | c :: _ => if c = '\n' then [⟨cs, prev, []⟩] else []

/-- Structural size of a pattern. -/
def RE.size : RE → ℕ
  | .eps => 1
  | .lit _ => 1
  | .cls _ => 1
  | .seq a b => a.size + b.size + 1
  | .alt a b => a.size + b.size + 1
  | .starG a => a.size + 1
  | .starL a => a.size + 1
  | .group _ a => a.size + 1
  | .bos => 1
  | .bolM => 1
  | .eolM => 1

/-- Fuel that the recursion of `reMatchesF` can never exhaust. -/
def reFuel (e : RE) (cs : List Char) : ℕ := (e.size + 1) * (cs.length + 2)

/-- All partial matches of `e` against `cs`, in Python's backtracking
preference order. -/
def reMatches (ci : Bool) (e : RE) (prev : Option Char) (cs : List Char) : List MRes :=
  reMatchesF ci (reFuel e cs) e prev cs

/-- `match.group(n)`: the first (shadowing) capture entry for `n`. -/
def capLookup (caps : List (ℕ × List Char)) (n : ℕ) : Option (List Char) :=
  (caps.find? fun p => p.1 == n).map Prod.snd

/-- The preferred match of `e` at exactly this position (the head of the
backtracking order), as Python returns it. -/
def reMatchAt (ci : Bool) (e : RE) (prev : Option Char) (cs : List Char) : Option MRes :=
  (reMatches ci e prev cs).head?

/-- `re.match(pattern, s)`: anchored at the start of the string. -/
def reMatchStart (ci : Bool) (e : RE) (s : List Char) : Option MRes :=
  reMatchAt ci e none s

/-- `re.search` scanning: try each position left to right; returns the
match start index (relative to the scan start) and the match. -/
def reSearchAux (ci : Bool) (e : RE) (prev : Option Char) (cs : List Char) (idx : ℕ) :
    Option (ℕ × MRes) :=
  match reMatchAt ci e prev cs with
  | some r => some (idx, r)
  | none =>
    match cs with
    | [] => none
    | c :: rest => reSearchAux ci e (some c) rest (idx + 1)

/-- `re.search(pattern, s)`. -/
def reSearch (ci : Bool) (e : RE) (s : List Char) : Option (ℕ × MRes) :=
  reSearchAux ci e none s 0

/-- The number of characters a match starting on `cs` consumed. -/
def consumedLen (cs : List Char) (r : MRes) : ℕ := cs.length - r.rest.length

/-- `re.finditer` restricted to patterns that cannot match the empty
string (every pattern it is used on consumes at least one character):
non-overlapping matches, each reported with its absolute start index.
The fuel only makes the recursion structural; each step consumes at
least one character, so `cs.length + 1` is never exhausted. -/
def reFindIterF (ci : Bool) (e : RE) : ℕ → Option Char → List Char → ℕ → List (ℕ × MRes)
  | 0, _, _, _ => []
  | fuel + 1, prev, cs, idx =>
    match reSearchAux ci e prev cs idx with
    | none => []
    | some (i, r) =>
      if r.rest.length < cs.length then
        (i, r) :: reFindIterF ci e fuel r.prev r.rest
          (i + ((cs.length - (i - idx)) - r.rest.length))
      else [(i, r)]

def reFindIter (ci : Bool) (e : RE) (prev : Option Char) (cs : List Char) (idx : ℕ) :
    List (ℕ × MRes) :=
  reFindIterF ci e (cs.length + 1) prev cs idx

/-! ### `base_parser.py`: `ParsedResult` -/

/-- `ParsedResult.__init__` and its defaults (the RawResult of the
spec). -/
structure ParsedResult where
  event_name : List Char := []
  place : Option ℤ := none
  athlete_name : List Char := []
  school : List Char := []
  mark_display : List Char := []
  mark : Option ℚ := none
  wind : Option ℚ := none
  heat : Option ℤ := none
  lane : Option ℤ := none
  flight : Option ℤ := none
  notes : List Char := []
  gender : Option (List Char) := none
  year : Option ℤ := none
  relay_team : Option (List Char) := none
deriving Repr, DecidableEq

/-! ### `hytek_text.py` -/

/-- `r'^Event \d+\s+(Girls|Boys)\s+(.+?)$'` with `re.MULTILINE`. -/
def hytekEventRE : RE :=
  reSeq [.bolM, reLits "Event ".data, RE.plusG (.cls .digit), RE.plusG (.cls .space),
    .group 1 (.alt (reLits "Girls".data) (reLits "Boys".data)),
    RE.plusG (.cls .space), .group 2 (RE.plusL (.cls .any)), .eolM]

/-- `r'^Event \d+\s+'` with `re.MULTILINE` (the next-event probe of
`find_event_section`). -/
def hytekEventStartRE : RE :=
  reSeq [.bolM, reLits "Event ".data, RE.plusG (.cls .digit), RE.plusG (.cls .space)]

/-- The individual-result row pattern of `_parse_individual_event`:
`r'^\s+(\d+)\s+#\s*(\d+)\s+(.+?),\s+(.+?)\s+(\d+)\s+([A-Za-z ]+?)\s+([a-zA-Z]?[\d:\.\-]+[a-zA-Z]*)\s+'`. -/
def hytekIndivRE : RE :=
  reSeq [.bos, RE.plusG (.cls .space), .group 1 (RE.plusG (.cls .digit)),
    RE.plusG (.cls .space), .lit '#', .starG (.cls .space),
    .group 2 (RE.plusG (.cls .digit)), RE.plusG (.cls .space),
    .group 3 (RE.plusL (.cls .any)), .lit ',', RE.plusG (.cls .space),
    .group 4 (RE.plusL (.cls .any)), RE.plusG (.cls .space),
    .group 5 (RE.plusG (.cls .digit)), RE.plusG (.cls .space),
    .group 6 (RE.plusL (.cls (.ranges [('A', 'Z'), ('a', 'z')] [' ']))),
    RE.plusG (.cls .space),
    .group 7 (reSeq [RE.optG (.cls .alpha),
      RE.plusG (.cls (.ranges [('0', '9')] [':', '.', '-'])), .starG (.cls .alpha)]),
    RE.plusG (.cls .space)]

/-- The relay team-header pattern of `_parse_relay_event`:
`r'^\s+(\d+)\s+(.+?)\s+\'([A-Z])\'\s+([\d:\.]+[a-zA-Z]*)\s+(\d+)?'`. -/
def hytekTeamRE : RE :=
  reSeq [.bos, RE.plusG (.cls .space), .group 1 (RE.plusG (.cls .digit)),
    RE.plusG (.cls .space), .group 2 (RE.plusL (.cls .any)), RE.plusG (.cls .space),
    .lit '\'', .group 3 (.cls (.ranges [('A', 'Z')] [])), .lit '\'',
    RE.plusG (.cls .space),
    .group 4 (.seq (RE.plusG (.cls (.ranges [('0', '9')] [':', '.'])))
      (.starG (.cls .alpha))),
    RE.plusG (.cls .space), RE.optG (.group 5 (RE.plusG (.cls .digit)))]

/-- The relay member pattern of `_parse_relay_event` (used with
`re.search`): `r'(\d+)\)\s+#(\d+)\s+(.+?),\s+(.+?)\s+(\d+)'`. -/
def hytekMemberRE : RE :=
  reSeq [.group 1 (RE.plusG (.cls .digit)), .lit ')', RE.plusG (.cls .space), .lit '#',
    .group 2 (RE.plusG (.cls .digit)), RE.plusG (.cls .space),
    .group 3 (RE.plusL (.cls .any)), .lit ',', RE.plusG (.cls .space),
    .group 4 (RE.plusL (.cls .any)), RE.plusG (.cls .space),
    .group 5 (RE.plusG (.cls .digit))]

/-- `re.sub(r'[a-zA-Z]', '', s)`: remove every ASCII letter. -/
def removeAllAlpha (s : List Char) : List Char := s.filter fun c => !isAsciiAlpha c

/-- `re.sub(r'^[a-zA-Z]', '', s)`: drop one leading ASCII letter. -/
def dropOneLeadingAlpha (s : List Char) : List Char :=
  match s with
  | c :: rest => if isAsciiAlpha c then rest else c :: rest
  | [] => []

/-- `re.match(r'^[A-Z]{2,}$', s)`: the DNS/DNF/SCR status-code test
(two or more uppercase letters and nothing else; `$` may precede a final
newline, which a mark token never contains). -/
def isStatusCode (s : List Char) : Bool := 2 ≤ s.length && s.all isAsciiUpper

/-- The mark conversion of `_parse_individual_event`: strip an `x`
prefix, then one letter prefix, then convert as `MM:SS.ss`, feet-inches,
or a plain number.  Every `int`/`float` here sits in `try/except` whose
handler `continue`s, so failure means "row dropped" (`none`). -/
def hytekIndivMark (mark_str : List Char) : Option ℚ :=
  let mark_clean := if mark_str.head? = some 'x' then mark_str.tail else mark_str
  let mark_clean := dropOneLeadingAlpha mark_clean
  if mark_clean.contains ':' then
    match splitOnChar ':' (dropTrailingAlphaRun mark_clean) with
    | p0 :: p1 :: _ => do
      let m ← pyInt p0
      let sec ← pyFloat p1
      some ((m : ℚ) * 60 + sec)
    | _ => none
  else if mark_clean.contains '-' && mark_clean.head? ≠ some '-' then
    match splitOnChar '-' (dropTrailingAlphaRun mark_clean) with
    | p0 :: p1 :: _ => do
      let ft ← pyInt p0
      let inch ← pyFloat p1
      some (((ft : ℚ) * 12 + inch) * 0.0254)
    | _ => none
  else
    pyFloat (removeAllAlpha mark_clean)

/-- `int(year) if year.isdigit() else None`. -/
def pyYearField (year : List Char) : Option ℤ :=
  if pyIsDigit year then pyInt year else none

/-- `HyTekTextParser._parse_individual_event`.  Lines that fail the row
pattern, carry a status-code mark, or whose mark fails conversion are
skipped; the results keep document line order.  (The source also
computes an unused local `is_timed`.) -/
def hytek_parse_individual_event (event_text gender event_name : List Char) :
    List ParsedResult :=
  let gender_code := if gender = "Boys".data then "M".data else "F".data
  let full_event_name := gender ++ ' ' :: event_name
  (splitLines event_text).filterMap fun line =>
    match reMatchStart false hytekIndivRE line with
    | none => none
    | some m =>
      let last_name := pyStrip ((capLookup m.caps 3).getD [])
      let first_name := pyStrip ((capLookup m.caps 4).getD [])
      let school := pyStrip ((capLookup m.caps 6).getD [])
      let mark_str := pyStrip ((capLookup m.caps 7).getD [])
      if isStatusCode mark_str then none
      else
        match hytekIndivMark mark_str with
        | none => none
        | some mark =>
          some { event_name := full_event_name,
                 athlete_name := first_name ++ ' ' :: last_name,
                 school := school,
                 mark := some mark,
                 mark_display := mark_str,
                 place := pyInt ((capLookup m.caps 1).getD []),
                 gender := some gender_code,
                 year := pyYearField ((capLookup m.caps 5).getD []) }

/-- The team-header mark conversion of `_parse_relay_event`: all letters
are removed first; in the `':'` branch `int`/`float` are *not* inside a
`try`, so their failure raises; the plain-number branch is guarded and
yields `None`. -/
def hytekRelayMark (current_mark_str : List Char) : Except PyErr (Option ℚ) :=
  let mark_clean := removeAllAlpha current_mark_str
  if mark_clean.contains ':' then
    match splitOnChar ':' mark_clean with
    | p0 :: p1 :: _ => do
      let m ← pyIntE p0
      let sec ← pyFloatE p1
      return some ((m : ℚ) * 60 + sec)
    | _ => .error .valueError
  else
    match pyFloat mark_clean with
    | some v => .ok (some v)
    | none => .ok none

/-- The loop state of `_parse_relay_event`. -/
structure RelayState where
  school : Option (List Char) := none
  relay_team : Option (List Char) := none
  mark : Option ℚ := none
  mark_str : List Char := []
  place : Option ℤ := none
  members : List (List Char × Option ℤ) := []
  results : List ParsedResult := []
deriving Repr, DecidableEq

/-- `if current_school and current_mark and team_members:` — Python
truthiness: non-empty school string, non-zero present mark, non-empty
member list. -/
def relayTruthy (st : RelayState) : Bool :=
  (match st.school with | some s => !s.isEmpty | none => false) &&
    (match st.mark with | some m => decide (m ≠ 0) | none => false) &&
    !st.members.isEmpty

/-- Emit one `ParsedResult` per accumulated team member, in member
order. -/
def relayEmit (full_event_name gender_code : List Char) (st : RelayState) :
    List ParsedResult :=
  st.members.map fun mem =>
    { event_name := full_event_name,
      athlete_name := mem.1,
      school := st.school.getD [],
      mark := st.mark,
      mark_display := st.mark_str,
      place := st.place,
      gender := some gender_code,
      year := mem.2,
      relay_team := st.relay_team }

/-- One line of the `_parse_relay_event` loop. -/
def relayLineStep (full_event_name gender_code : List Char) (st : RelayState)
    (line : List Char) : Except PyErr RelayState :=
  match reMatchStart false hytekTeamRE line with
  | some tm => do
    let results' :=
      if relayTruthy st then st.results ++ relayEmit full_event_name gender_code st
      else st.results
    let mark_str := pyStrip ((capLookup tm.caps 4).getD [])
    let mark ← hytekRelayMark mark_str
    return { school := some (pyStrip ((capLookup tm.caps 2).getD [])),
             relay_team := some ((capLookup tm.caps 3).getD []),
             mark := mark,
             mark_str := mark_str,
             place := pyInt ((capLookup tm.caps 1).getD []),
             members := [],
             results := results' }
  | none =>
    match reSearch false hytekMemberRE line, st.school with
    | some (_, mm), some sch =>
      -- `elif member_match and current_school:`
      if sch.isEmpty then .ok st
      else
        let last_name := pyStrip ((capLookup mm.caps 3).getD [])
        let first_name := pyStrip ((capLookup mm.caps 4).getD [])
        let yr := (capLookup mm.caps 5).getD []
        .ok { st with
          members := st.members ++ [(first_name ++ ' ' :: last_name, pyYearField yr)] }
    | _, _ => .ok st

/-- `HyTekTextParser._parse_relay_event`. -/
def hytek_parse_relay_event (event_text gender event_name : List Char) :
    Except PyErr (List ParsedResult) := do
  let gender_code := if gender = "Boys".data then "M".data else "F".data
  let full_event_name := gender ++ ' ' :: event_name
  let final ← (splitLines event_text).foldlM (relayLineStep full_event_name gender_code) {}
  return if relayTruthy final then
      final.results ++ relayEmit full_event_name gender_code final
    else final.results

/-- The per-event dispatch of `parse_all_events`:
`'relay' in event_name.lower()` selects the relay parser. -/
def hytekEventResults (event_text gender event_name : List Char) :
    Except PyErr (List ParsedResult) :=
  if strContains (pyLower event_name) "relay".data then
    hytek_parse_relay_event event_text gender event_name
  else .ok (hytek_parse_individual_event event_text gender event_name)

/-- The segment walk of `parse_all_events`: each event runs from its
header's start to the next header's start (or the end of the
document). -/
def hytekEventsGo (content : List Char) : List (ℕ × MRes) → Except PyErr (List ParsedResult)
  | [] => .ok []
  | (i, m) :: rest => do
    let endPos := match rest with | (j, _) :: _ => j | [] => content.length
    let results ← hytekEventResults ((content.drop i).take (endPos - i))
      ((capLookup m.caps 1).getD []) (pyStrip ((capLookup m.caps 2).getD []))
    let restResults ← hytekEventsGo content rest
    return results ++ restResults

/-- `HyTekTextParser.parse_all_events`. -/
def hytek_parse_all_events (content : List Char) : Except PyErr (List ParsedResult) :=
  hytekEventsGo content (reFindIter false hytekEventRE none content 0)

/-- The `event_config` keys the extractors read. -/
structure EventConfig where
  canonical_event : Option (List Char) := none
  gender : List Char := []
  event_header : List Char := []
deriving Repr, DecidableEq

/-- `HyTekTextParser.parse` (the document text stands in for the file
read): parse all events, then filter to `f"{gender} {canonical}"` when a
canonical event is configured. -/
def hytek_parse (content : List Char) (cfg : EventConfig) :
    Except PyErr (List ParsedResult) := do
  let all ← hytek_parse_all_events content
  match cfg.canonical_event with
  | some canonical =>
    return all.filter fun r => r.event_name == cfg.gender ++ ' ' :: canonical
  | none => return all

/-- `HyTekTextParser.find_event_section`:
`rf'^Event \d+\s+{re.escape(event_header)}$'` with `re.MULTILINE`,
then the next `r'^Event \d+\s+'` after `start + 1`, else end. -/
def hytek_find_event_section (content event_header : List Char) : List Char :=
  match reSearch false
      (reSeq [.bolM, reLits "Event ".data, RE.plusG (.cls .digit), RE.plusG (.cls .space),
        reLits event_header, .eolM]) content with
  | none => []
  | some (start, _) =>
    let tail1 := content.drop (start + 1)
    match reSearch false hytekEventStartRE tail1 with
    | some (j, _) => (content.drop start).take (start + 1 + j - start)
    | none => content.drop start

/-- Peel one `Except` bind. -/
theorem except_bind_ok {α β : Type} {x : Except PyErr α} {f : α → Except PyErr β}
    {b : β} (h : (x >>= f) = .ok b) : ∃ a, x = .ok a ∧ f a = .ok b := by
  cases x with
  | error e => simp [Bind.bind, Except.bind] at h
  | ok a => exact ⟨a, rfl, by simpa [Bind.bind, Except.bind] using h⟩

theorem except_pure_ok {α : Type} {a b : α}
    (h : (pure a : Except PyErr α) = .ok b) : a = b := by
  simpa [Pure.pure, Except.pure] using h

/-- The relay-loop invariant: every result accumulated so far carries a
present, non-zero mark. -/
def RelayInv (st : RelayState) : Prop :=
  ∀ r ∈ st.results, ∃ m, r.mark = some m ∧ m ≠ 0

theorem relayTruthy_mark {st : RelayState} (h : relayTruthy st = true) :
    ∃ m, st.mark = some m ∧ m ≠ 0 := by
  unfold relayTruthy at h
  simp only [Bool.and_eq_true] at h
  obtain ⟨⟨-, hm⟩, -⟩ := h
  cases hmk : st.mark with
  | none => rw [hmk] at hm; cases hm
  | some m =>
    rw [hmk] at hm
    exact ⟨m, rfl, of_decide_eq_true hm⟩

theorem relayEmit_inv {full gc : List Char} {st : RelayState}
    (h : relayTruthy st = true) :
    ∀ r ∈ relayEmit full gc st, ∃ m, r.mark = some m ∧ m ≠ 0 := by
  intro r hr
  obtain ⟨mem, -, rfl⟩ := List.mem_map.mp hr
  exact relayTruthy_mark h

theorem relayLineStep_inv {full gc line : List Char} {st st' : RelayState}
    (hinv : RelayInv st) (h : relayLineStep full gc st line = .ok st') :
    RelayInv st' := by
  unfold relayLineStep at h
  cases htm : reMatchStart false hytekTeamRE line with
  | some tm =>
    rw [htm] at h
    dsimp only at h
    obtain ⟨mk, hmk, hret⟩ := except_bind_ok h
    have := except_pure_ok hret
    subst this
    intro r hr
    dsimp only at hr
    by_cases htr : relayTruthy st = true
    · simp only [htr, if_true] at hr
      rcases List.mem_append.mp hr with h1 | h1
      · exact hinv r h1
      · exact relayEmit_inv htr r h1
    · simp only [Bool.not_eq_true] at htr
      simp only [htr, Bool.false_eq_true, if_false] at hr
      exact hinv r hr
  | none =>
    rw [htm] at h
    cases hmm : reSearch false hytekMemberRE line with
    | none =>
      rw [hmm] at h
      cases hsch : st.school <;> simp only [hsch] at h <;> cases h <;> exact hinv
    | some mr =>
      rw [hmm] at h
      cases hsch : st.school with
      | none => simp only [hsch] at h; cases h; exact hinv
      | some sch =>
        simp only [hsch] at h
        by_cases he : sch.isEmpty
        · simp only [he, if_true] at h; cases h; exact hinv
        · simp only [he, Bool.false_eq_true, if_false] at h
          cases h
          intro r hr
          exact hinv r hr

theorem relay_foldlM_inv {full gc : List Char} {lines : List (List Char)}
    {st final : RelayState} (hinv : RelayInv st)
    (h : lines.foldlM (relayLineStep full gc) st = .ok final) : RelayInv final := by
  induction lines generalizing st with
  | nil =>
    simp only [List.foldlM_nil] at h
    cases except_pure_ok h
    exact hinv
  | cons l ls ih =>
    rw [List.foldlM_cons] at h
    obtain ⟨st1, hstep, hrest⟩ := except_bind_ok h
    exact ih (relayLineStep_inv hinv hstep) hrest

/-- `_parse_relay_event` only returns results with a present, non-zero
mark. -/
theorem hytek_relay_inv {t g n : List Char} {l : List ParsedResult}
    (h : hytek_parse_relay_event t g n = .ok l) :
    ∀ r ∈ l, ∃ m, r.mark = some m ∧ m ≠ 0 := by
  unfold hytek_parse_relay_event at h
  obtain ⟨final, hfold, hret⟩ := except_bind_ok h
  cases except_pure_ok hret
  have hfinv : RelayInv final := relay_foldlM_inv (by intro r hr; cases hr) hfold
  intro r hr
  by_cases htr : relayTruthy final = true
  · simp only [htr, if_true] at hr
    rcases List.mem_append.mp hr with h1 | h1
    · exact hfinv r h1
    · exact relayEmit_inv htr r h1
  · simp only [Bool.not_eq_true] at htr
    simp only [htr, Bool.false_eq_true, if_false] at hr
    exact hfinv r hr

/-- `_parse_individual_event` never sets `relay_team`. -/
theorem hytek_individual_no_relay {t g n : List Char} {r : ParsedResult}
    (hr : r ∈ hytek_parse_individual_event t g n) : r.relay_team = none := by
  obtain ⟨line, -, hline⟩ := List.mem_filterMap.mp hr
  cases hm : reMatchStart false hytekIndivRE line with
  | none => rw [hm] at hline; cases hline
  | some mm =>
    rw [hm] at hline
    dsimp only at hline
    by_cases hst : isStatusCode (pyStrip ((capLookup mm.caps 7).getD [])) = true
    · rw [if_pos hst] at hline; cases hline
    · rw [if_neg hst] at hline
      cases hmk : hytekIndivMark (pyStrip ((capLookup mm.caps 7).getD [])) with
      | none => rw [hmk] at hline; cases hline
      | some mk =>
        rw [hmk] at hline
        cases hline
        rfl

theorem hytekEventResults_inv {t g n : List Char} {l : List ParsedResult}
    (h : hytekEventResults t g n = .ok l) :
    ∀ r ∈ l, r.relay_team ≠ none → ∃ m, r.mark = some m ∧ m ≠ 0 := by
  unfold hytekEventResults at h
  by_cases hrel : strContains (pyLower n) "relay".data = true
  · rw [if_pos hrel] at h
    exact fun r hr _ => hytek_relay_inv h r hr
  · rw [if_neg hrel] at h
    cases h
    intro r hr hrt
    exact absurd (hytek_individual_no_relay hr) hrt

theorem hytekEventsGo_from_event {content : List Char} {segs : List (ℕ × MRes)}
    {all : List ParsedResult} (hall : hytekEventsGo content segs = .ok all) :
    ∀ r ∈ all, ∃ t g n l, hytekEventResults t g n = .ok l ∧ r ∈ l := by
  induction segs generalizing all with
  | nil =>
    simp only [hytekEventsGo] at hall
    cases except_pure_ok hall
    intro r hr
    cases hr
  | cons seg rest ih =>
    obtain ⟨i, m⟩ := seg
    simp only [hytekEventsGo] at hall
    obtain ⟨l1, hl1, hrest⟩ := except_bind_ok hall
    obtain ⟨l2, hl2, hret⟩ := except_bind_ok hrest
    cases except_pure_ok hret
    intro r hr
    rcases List.mem_append.mp hr with h1 | h1
    · exact ⟨_, _, _, l1, hl1, h1⟩
    · exact ih hl2 r h1

/-- C10: every `ParsedResult` returned by the timing-system extractor's
`parse` with `relay_team` set has a present, non-zero mark: a relay team
whose header mark fails numeric conversion (`current_mark = None`) or
converts to `0.0` fails the save condition's truthiness test and
contributes no result for any of its members, while individual rows
never set `relay_team`. -/
theorem C10_relay_results_have_marks (content : List Char) (cfg : EventConfig)
    (res : List ParsedResult) (h : hytek_parse content cfg = .ok res) :
    ∀ r ∈ res, r.relay_team ≠ none → ∃ m, r.mark = some m ∧ m ≠ 0 := by
  unfold hytek_parse at h
  obtain ⟨all, hall, hfilter⟩ := except_bind_ok h
  have hsub : ∀ r ∈ res, r ∈ all := by
    cases hce : cfg.canonical_event with
    | none =>
      rw [hce] at hfilter
      cases except_pure_ok hfilter
      exact fun r hr => hr
    | some canonical =>
      rw [hce] at hfilter
      cases except_pure_ok hfilter
      exact fun r hr => List.mem_of_mem_filter hr
  intro r hr hrt
  obtain ⟨t, g, n, l, hev, hmem⟩ :=
    hytekEventsGo_from_event hall r (hsub r hr)
  exact hytekEventResults_inv hev r hmem hrt

theorem splitOnChar_append_cons {sep : Char} {A B : List Char} (hA : sep ∉ A) :
    splitOnChar sep (A ++ sep :: B) = A :: splitOnChar sep B := by
  induction A with
  | nil => simp [splitOnChar]
  | cons c cs ih =>
    have hc : c ≠ sep := fun hcs => hA (hcs ▸ List.mem_cons_self c cs)
    have hcs : sep ∉ cs := fun hm => hA (List.mem_cons_of_mem c hm)
    simp only [List.cons_append, splitOnChar, hc, if_false, List.append_eq, ih hcs]

/-- Splitting the newline-join of newline-free lines recovers them. -/
theorem splitLines_joinLines {ls : List (List Char)} (hnl : ∀ l ∈ ls, '\n' ∉ l)
    (hne : ls ≠ []) : splitLines (joinLines ls) = ls := by
  induction ls with
  | nil => exact absurd rfl hne
  | cons l rest ih =>
    cases rest with
    | nil =>
      simpa [splitLines, joinLines] using
        splitOnChar_of_not_mem (hnl l (List.mem_cons_self l []))
    | cons l2 rest2 =>
      have h1 : '\n' ∉ l := hnl l (List.mem_cons_self _ _)
      have h2 : ∀ x ∈ l2 :: rest2, '\n' ∉ x := fun x hx => hnl x (List.mem_cons_of_mem _ hx)
      simp only [splitLines, joinLines] at ih ⊢
      rw [splitOnChar_append_cons h1, ih h2 (by simp)]

/-- The member fields `_parse_relay_event` reads off a member line. -/
def relayMemberPair (line : List Char) : List Char × Option ℤ :=
  match reSearch false hytekMemberRE line with
  | some mr =>
    (pyStrip ((capLookup mr.2.caps 4).getD []) ++ ' ' :: pyStrip ((capLookup mr.2.caps 3).getD []),
     pyYearField ((capLookup mr.2.caps 5).getD []))
  | none => ([], none)

/-- Walking member lines accumulates their members in line order and
changes nothing else in the loop state. -/
theorem relay_members_fold {full gc sc : List Char} {ls : List (List Char)}
    {st : RelayState} (hsch : st.school = some sc) (hsc : sc ≠ [])
    (hteam : ∀ l ∈ ls, reMatchStart false hytekTeamRE l = none)
    (hmem : ∀ l ∈ ls, (reSearch false hytekMemberRE l).isSome = true) :
    ls.foldlM (relayLineStep full gc) st =
      .ok { st with members := st.members ++ ls.map relayMemberPair } := by
  induction ls generalizing st with
  | nil =>
    simp only [List.foldlM_nil, List.map_nil, List.append_nil]
    rfl
  | cons l rest ih =>
    rw [List.foldlM_cons]
    have hstep : relayLineStep full gc st l =
        .ok { st with members := st.members ++ [relayMemberPair l] } := by
      unfold relayLineStep
      rw [hteam l (List.mem_cons_self _ _)]
      cases hs : reSearch false hytekMemberRE l with
      | none =>
        have hx := hmem l (List.mem_cons_self _ _)
        rw [hs] at hx
        simp at hx
      | some mr =>
        obtain ⟨i, mm⟩ := mr
        rw [hsch]
        dsimp only
        have : sc.isEmpty = false := by
          cases sc with
          | nil => exact absurd rfl hsc
          | cons a b => rfl
        rw [this]
        simp only [Bool.false_eq_true, if_false, relayMemberPair, hs]
    rw [hstep]
    simp only [Bind.bind, Except.bind]
    rw [@ih { st with members := st.members ++ [relayMemberPair l] } hsch
      (fun x hx => hteam x (List.mem_cons_of_mem _ hx))
      (fun x hx => hmem x (List.mem_cons_of_mem _ hx))]
    simp [List.append_assoc]

/-- C3: a relay block — one team-header line followed by member lines,
one member entry per line — yields one `ParsedResult` per member line,
all sharing the team's mark, place, school and relay-team letter, in the
lines' order of appearance (so the 1-based position in the returned
sequence is the member's leg order).  Hypotheses: the header line
matches the team pattern with a non-blank school and a mark that
converts to a non-zero value, and each member line matches the member
pattern (and not the team pattern); no line contains a newline. -/
theorem C3_relay_block_per_member (gender event_name teamLine : List Char)
    (memberLines : List (List Char)) (tm : MRes) (mk : ℚ)
    (h1 : reMatchStart false hytekTeamRE teamLine = some tm)
    (h2 : hytekRelayMark (pyStrip ((capLookup tm.caps 4).getD [])) = .ok (some mk))
    (h3 : mk ≠ 0)
    (h4 : pyStrip ((capLookup tm.caps 2).getD []) ≠ [])
    (h5 : ∀ l ∈ memberLines, reMatchStart false hytekTeamRE l = none)
    (h6 : ∀ l ∈ memberLines, (reSearch false hytekMemberRE l).isSome = true)
    (h7 : ∀ l ∈ teamLine :: memberLines, '\n' ∉ l) :
    hytek_parse_relay_event (joinLines (teamLine :: memberLines)) gender event_name =
      .ok (memberLines.map fun l =>
        { event_name := gender ++ ' ' :: event_name,
          athlete_name := (relayMemberPair l).1,
          school := pyStrip ((capLookup tm.caps 2).getD []),
          mark := some mk,
          mark_display := pyStrip ((capLookup tm.caps 4).getD []),
          place := pyInt ((capLookup tm.caps 1).getD []),
          gender := some (if gender = "Boys".data then "M".data else "F".data),
          year := (relayMemberPair l).2,
          relay_team := some ((capLookup tm.caps 3).getD []) }) := by
  unfold hytek_parse_relay_event
  dsimp only
  rw [show splitLines (joinLines (teamLine :: memberLines)) = teamLine :: memberLines from
    splitLines_joinLines h7 (by simp)]
  rw [List.foldlM_cons]
  have hstep : relayLineStep (gender ++ ' ' :: event_name)
      (if gender = "Boys".data then "M".data else "F".data) {} teamLine =
      .ok { school := some (pyStrip ((capLookup tm.caps 2).getD [])),
            relay_team := some ((capLookup tm.caps 3).getD []),
            mark := some mk,
            mark_str := pyStrip ((capLookup tm.caps 4).getD []),
            place := pyInt ((capLookup tm.caps 1).getD []),
            members := [],
            results := [] } := by
    unfold relayLineStep
    rw [h1]
    dsimp only
    rw [show relayTruthy {} = false from rfl]
    simp only [Bool.false_eq_true, if_false, h2, Bind.bind, Except.bind]
    rfl
  rw [hstep]
  simp only [Bind.bind, Except.bind]
  rw [relay_members_fold rfl h4 h5 h6]
  simp only [List.nil_append]
  by_cases hml : memberLines = []
  · subst hml
    simp only [List.map_nil]
    have hfalse : relayTruthy
        { school := some (pyStrip ((capLookup tm.caps 2).getD [])),
          relay_team := some ((capLookup tm.caps 3).getD []),
          mark := some mk,
          mark_str := pyStrip ((capLookup tm.caps 4).getD []),
          place := pyInt ((capLookup tm.caps 1).getD []),
          members := [],
          results := [] } = false := by
      unfold relayTruthy
      simp
    rw [hfalse]
    rfl
  · have htr : relayTruthy
        { school := some (pyStrip ((capLookup tm.caps 2).getD [])),
          relay_team := some ((capLookup tm.caps 3).getD []),
          mark := some mk,
          mark_str := pyStrip ((capLookup tm.caps 4).getD []),
          place := pyInt ((capLookup tm.caps 1).getD []),
          members := memberLines.map relayMemberPair,
          results := [] } = true := by
      unfold relayTruthy
      simp only [Bool.and_eq_true]
      refine ⟨⟨?_, decide_eq_true h3⟩, ?_⟩
      · cases hx : pyStrip ((capLookup tm.caps 2).getD []) with
        | nil => exact absurd hx h4
        | cons a b => rfl
      · simp [hml]
    simp only [htr, if_true, relayEmit, List.nil_append, List.map_map]
    rfl

/-- Witness for C3: a Girls 4x800 relay block with two member lines. -/
theorem C3_relay_block_per_member_witness :
    hytek_parse_relay_event
      (joinLines [" 1 Fort Collins 'A' 10:56.50 2".data,
        " 1) #702 Hoppin, Macie 10".data, " 2) #725 Sullivan, Sarah 9".data])
      "Girls".data "4x800 Meter Relay".data =
    .ok ([" 1) #702 Hoppin, Macie 10".data, " 2) #725 Sullivan, Sarah 9".data].map fun l =>
      { event_name := "Girls".data ++ ' ' :: "4x800 Meter Relay".data,
        athlete_name := (relayMemberPair l).1,
        school := pyStrip ((capLookup [(5, ['2']),
          (4, ['1', '0', ':', '5', '6', '.', '5', '0']), (3, ['A']),
          (2, ['F', 'o', 'r', 't', ' ', 'C', 'o', 'l', 'l', 'i', 'n', 's']),
          (1, ['1'])] 2).getD []),
        mark := some (1313 / 2),
        mark_display := pyStrip ((capLookup [(5, ['2']),
          (4, ['1', '0', ':', '5', '6', '.', '5', '0']), (3, ['A']),
          (2, ['F', 'o', 'r', 't', ' ', 'C', 'o', 'l', 'l', 'i', 'n', 's']),
          (1, ['1'])] 4).getD []),
        place := pyInt ((capLookup [(5, ['2']),
          (4, ['1', '0', ':', '5', '6', '.', '5', '0']), (3, ['A']),
          (2, ['F', 'o', 'r', 't', ' ', 'C', 'o', 'l', 'l', 'i', 'n', 's']),
          (1, ['1'])] 1).getD []),
        gender := some (if "Girls".data = "Boys".data then "M".data else "F".data),
        year := (relayMemberPair l).2,
        relay_team := some ((capLookup [(5, ['2']),
          (4, ['1', '0', ':', '5', '6', '.', '5', '0']), (3, ['A']),
          (2, ['F', 'o', 'r', 't', ' ', 'C', 'o', 'l', 'l', 'i', 'n', 's']),
          (1, ['1'])] 3).getD []) }) :=
  C3_relay_block_per_member "Girls".data "4x800 Meter Relay".data
    " 1 Fort Collins 'A' 10:56.50 2".data
    [" 1) #702 Hoppin, Macie 10".data, " 2) #725 Sullivan, Sarah 9".data]
    { rest := [], prev := some '2',
      caps := [(5, ['2']), (4, ['1', '0', ':', '5', '6', '.', '5', '0']), (3, ['A']),
        (2, ['F', 'o', 'r', 't', ' ', 'C', 'o', 'l', 'l', 'i', 'n', 's']), (1, ['1'])] }
    (1313 / 2)
    (by with_unfolding_all decide)
    (by with_unfolding_all decide)
    (by norm_num)
    (by decide)
    (by decide)
    (by decide)
    (by decide)

/-- Witness for C10, at the parse of a one-relay document. -/
theorem C10_relay_results_have_marks_witness :
    ∃ m, (({ event_name := "Girls 4x800 Meter Relay".data,
             athlete_name := "Macie Hoppin".data,
             school := "Fort Collins".data,
             mark := some (1313 / 2),
             mark_display := "10:56.50".data,
             place := some 1,
             gender := some "F".data,
             year := some 10,
             relay_team := some "A".data } : ParsedResult)).mark = some m ∧ m ≠ 0 :=
  C10_relay_results_have_marks
    "Event 10 Girls 4x800 Meter Relay\n 1 Fort Collins 'A' 10:56.50 2\n 1) #702 Hoppin, Macie 10\n 2) #725 Sullivan, Sarah 9\n".data
    {}
    [{ event_name := "Girls 4x800 Meter Relay".data,
       athlete_name := "Macie Hoppin".data,
       school := "Fort Collins".data,
       mark := some (1313 / 2),
       mark_display := "10:56.50".data,
       place := some 1,
       gender := some "F".data,
       year := some 10,
       relay_team := some "A".data },
     { event_name := "Girls 4x800 Meter Relay".data,
       athlete_name := "Sarah Sullivan".data,
       school := "Fort Collins".data,
       mark := some (1313 / 2),
       mark_display := "10:56.50".data,
       place := some 1,
       gender := some "F".data,
       year := some 9,
       relay_team := some "A".data }]
    (by with_unfolding_all decide)
    _ (List.mem_cons_self _ _)
    (by decide)

/-! ### `milesplit_multi.py` -/

/-- `_is_timed_event`: timed unless a field-event name occurs in the
lowered canonical event (shared verbatim by the generic extractor). -/
def is_timed_event (event_name : List Char) : Bool :=
  !(["shot put".data, "discus".data, "javelin".data, "high jump".data,
     "pole vault".data, "long jump".data, "triple jump".data,
     "decathlon".data, "heptathlon".data].any fun fe =>
      strContains (pyLower event_name) fe)

/-- The next-event probe of `find_event_section`:
`r'\n\s*((?:Boys|Girls|Men\'?s?|Women\'?s?)\s+\d*\s*(?:Meter|Mile|Shot|Discus|Javelin|High|Long|Triple|Pole|Hurdle|Relay|Steeplechase|Medley))'`
(used with `re.IGNORECASE`). -/
def milesplitNextEventRE : RE :=
  reSeq [.lit '\n', .starG (.cls .space),
    .group 1 (reSeq [
      reAlts [reLits "Boys".data, reLits "Girls".data,
        reSeq [reLits "Men".data, RE.optG (.lit '\''), RE.optG (.lit 's')],
        reSeq [reLits "Women".data, RE.optG (.lit '\''), RE.optG (.lit 's')]],
      RE.plusG (.cls .space), .starG (.cls .digit), .starG (.cls .space),
      reAlts [reLits "Meter".data, reLits "Mile".data, reLits "Shot".data,
        reLits "Discus".data, reLits "Javelin".data, reLits "High".data,
        reLits "Long".data, reLits "Triple".data, reLits "Pole".data,
        reLits "Hurdle".data, reLits "Relay".data, reLits "Steeplechase".data,
        reLits "Medley".data]])]

/-- `MilesplitMultiParser.find_event_section`: case-insensitive literal
search for the header; the section ends at the next gender+event header
or the end of the document; an unfound header yields the empty string. -/
def milesplit_find_event_section (content event_header : List Char) : List Char :=
  if event_header = [] then content
  else
    match ciFind content event_header with
    | none => []
    | some start =>
      let matchEnd := start + event_header.length
      match reSearch true milesplitNextEventRE (content.drop matchEnd) with
      | some (j, _) => (content.drop start).take (matchEnd + j - start)
      | none => content.drop start

/-- `r'^[A-Za-z\s,.\'-]+$'` on a cell: non-empty and every character a
letter, whitespace, comma, dot, apostrophe or hyphen (the class contains
`\n`, so the `$` subtlety is vacuous). -/
def isNameCell (text : List Char) : Bool :=
  !text.isEmpty && text.all fun c =>
    isAsciiAlpha c || isPySpace c || c == ',' || c == '.' || c == '\'' || c == '-'

/-- `re.match(r'^\d+[:.]\d+', t)` / `re.match(r"^\d+['\-]\d+", t)`: a
non-empty digit run (maximal, and backtracking cannot shorten it since a
given-back digit is not a separator), one separator, one more digit. -/
def startsDigitsSepDigit (seps : List Char) (text : List Char) : Bool :=
  match text.takeWhile isAsciiDigit, text.dropWhile isAsciiDigit with
  | _ :: _, c :: c2 :: _ => seps.contains c && isAsciiDigit c2
  | _, _ => false

/-- `re.match(r'^[+-]?\d+\.\d+$', t)` (cell texts are
`get_text(strip=True)` outputs and never end in a newline). -/
def isWindCell (text : List Char) : Bool :=
  let t := match text with
    | c :: r => if c = '+' ∨ c = '-' then r else text
    | [] => []
  match t.takeWhile isAsciiDigit, t.dropWhile isAsciiDigit with
  | _ :: _, '.' :: r2 => !r2.isEmpty && r2.all isAsciiDigit
  | _, _ => false

/-- `MilesplitMultiParser._parse_table_row`, one cell: the source walks
`enumerate(cell_texts)` mutating `result`. -/
def milesplitCellStep (is_timed : Bool) (r : ParsedResult) (cell : ℕ × List Char) :
    Except PyErr ParsedResult := do
  let (i, text) := cell
  if i = 0 ∧ pyIsDigit text then
    pure { r with place := pyInt text }
  else if isNameCell text ∧ 2 < text.length then
    pure (if r.athlete_name = [] then { r with athlete_name := text }
      else if r.school = [] then { r with school := text }
      else r)
  else if startsDigitsSepDigit [':', '.'] text ∨ startsDigitsSepDigit ['\'', '-'] text then
    if r.mark_display = [] then do
      let mk ← if is_timed then parse_time_to_seconds text else parse_distance_to_meters text
      pure { r with mark_display := text, mark := mk }
    else pure r
  else if isWindCell text ∧ r.mark_display ≠ [] then do
    let w ← parse_wind text
    pure { r with wind := w }
  else pure r

/-- `MilesplitMultiParser._parse_table_row`. -/
def milesplit_parse_table_row (cell_texts : List (List Char)) (is_timed : Bool) :
    Except PyErr ParsedResult :=
  cell_texts.enum.foldlM (milesplitCellStep is_timed) {}

/-- `MilesplitMultiParser._parse_html_table`, over the tables (each a
list of rows, each a list of cell texts) that `BeautifulSoup` extracts
from the section. -/
def milesplit_parse_html_table (tables : List (List (List (List Char))))
    (is_timed : Bool) : Except PyErr (List ParsedResult) :=
  tables.foldlM
    (fun acc table =>
      table.foldlM
        (fun acc row =>
          if row.length < 3 then pure acc
          else do
            let r ← milesplit_parse_table_row row is_timed
            pure (if r.athlete_name ≠ [] then acc ++ [r] else acc))
        acc)
    []

/-- `re.match(r'^(\d+)[.\s]', line)`: digits then one of `.` or the
whitespace class; on success the place digits and the text after the
separator. -/
def matchPlaceDot (line : List Char) : Option (List Char × List Char) :=
  match line.takeWhile isAsciiDigit, line.dropWhile isAsciiDigit with
  | d :: ds, c :: rest =>
    if c = '.' ∨ isPySpace c then some (d :: ds, rest) else none
  | _, _ => none

/-- `r'(\d{1,2}:\d{2}\.\d+|\d+\.\d+)\s*([+-]?\d+\.\d+)?'`. -/
def milesplitTimeRE : RE :=
  reSeq [.group 1 (.alt
      (reSeq [.cls .digit, RE.optG (.cls .digit), .lit ':', .cls .digit, .cls .digit,
        .lit '.', RE.plusG (.cls .digit)])
      (reSeq [RE.plusG (.cls .digit), .lit '.', RE.plusG (.cls .digit)])),
    .starG (.cls .space),
    RE.optG (.group 2 (reSeq [RE.optG (.cls (.oneOf ['+', '-'])),
      RE.plusG (.cls .digit), .lit '.', RE.plusG (.cls .digit)]))]

/-- `r"(\d+['\-]\d+(?:\.\d+)?[\"']?|\d+\.\d+m?)"`. -/
def milesplitDistRE : RE :=
  .group 1 (.alt
    (reSeq [RE.plusG (.cls .digit), .cls (.oneOf ['\'', '-']), RE.plusG (.cls .digit),
      RE.optG (reSeq [.lit '.', RE.plusG (.cls .digit)]),
      RE.optG (.cls (.oneOf ['"', '\'']))])
    (reSeq [RE.plusG (.cls .digit), .lit '.', RE.plusG (.cls .digit), RE.optG (.lit 'm')]))

/-- `r'(.+?)\s*\(([^)]+)\)'` (used with `re.match`). -/
def parenNameRE : RE :=
  reSeq [.group 1 (RE.plusL (.cls .any)), .starG (.cls .space), .lit '(',
    .group 2 (RE.plusG (.cls (.notOneOf [')']))), .lit ')']

/-- `re.split(r'\s{2,}', s)`: split on maximal runs of two or more
whitespace characters (single whitespace stays inside a part; a run at
either end produces an empty part, as in Python).  The `Bool` is true
while consuming a separator run. -/
def splitWs2Aux : Bool → List Char → List Char → List (List Char)
  | false, acc, [] => [acc.reverse]
  | false, acc, c1 :: rest =>
    if isPySpace c1 then
      match rest with
      | c2 :: _ =>
        if isPySpace c2 then acc.reverse :: splitWs2Aux true [] rest
        else splitWs2Aux false (c1 :: acc) rest
      | [] => [(c1 :: acc).reverse]
    else splitWs2Aux false (c1 :: acc) rest
  | true, acc, [] => [acc.reverse]
  | true, acc, c1 :: rest =>
    if isPySpace c1 then splitWs2Aux true acc rest
    else splitWs2Aux false (c1 :: acc) rest

def splitWs2 (s : List Char) : List (List Char) := splitWs2Aux false [] s

/-- `MilesplitMultiParser._parse_text_line`. -/
def milesplit_parse_text_line (line0 : List Char) (is_timed : Bool) :
    Except PyErr ParsedResult := do
  let (place, line1) :=
    match matchPlaceDot line0 with
    | some (d, rest) => (pyInt d, pyStrip rest)
    | none => ((none : Option ℤ), line0)
  let (markFields, line2) ←
    if is_timed then
      match reSearch false milesplitTimeRE line1 with
      | some (j, m) => do
        let g1 := (capLookup m.caps 1).getD []
        let mk ← parse_time_to_seconds g1
        let w ←
          match capLookup m.caps 2 with
          | some g2 => do
            let w ← parse_wind g2
            pure w
          | none => pure none
        pure ((g1, mk, w), pyStrip (line1.take j))
      | none => pure (([], (none : Option ℚ), (none : Option ℚ)), line1)
    else
      match reSearch false milesplitDistRE line1 with
      | some (j, m) => do
        let g1 := (capLookup m.caps 1).getD []
        let mk ← parse_distance_to_meters g1
        pure ((g1, mk, (none : Option ℚ)), pyStrip (line1.take j))
      | none => pure (([], (none : Option ℚ), (none : Option ℚ)), line1)
  let (nm, sch) :=
    match reMatchStart false parenNameRE line2 with
    | some pm =>
      (pyStrip ((capLookup pm.caps 1).getD []), pyStrip ((capLookup pm.caps 2).getD []))
    | none =>
      match splitWs2 line2 with
      | p0 :: p1 :: _ => (pyStrip p0, pyStrip p1)
      | [p0] => (pyStrip p0, [])
      | [] => ([], [])
  pure { place := place, mark_display := markFields.1, mark := markFields.2.1,
         wind := markFields.2.2, athlete_name := nm, school := sch }

/-- `MilesplitMultiParser._parse_text_results`. -/
def milesplit_parse_text_results (sect : List Char) (is_timed : Bool) :
    Except PyErr (List ParsedResult) :=
  (splitLines sect).foldlM
    (fun acc line0 =>
      let line := pyStrip line0
      if line = [] then pure acc
      else do
        let r ← milesplit_parse_text_line line is_timed
        pure (if r.athlete_name ≠ [] then acc ++ [r] else acc))
    []

/-- `MilesplitMultiParser.parse` (document text in place of the file
path; `tables` is the `BeautifulSoup` extraction of the section). -/
def milesplit_multi_parse (content : List Char)
    (tables : List (List (List (List Char)))) (cfg : EventConfig) :
    Except PyErr (List ParsedResult) :=
  let sect := milesplit_find_event_section content cfg.event_header
  if sect = [] then .ok []
  else
    let is_timed := is_timed_event (cfg.canonical_event.getD [])
    if strContains (pyLower sect) "<table".data ||
        strContains (pyLower sect) "<tr".data then
      milesplit_parse_html_table tables is_timed
    else milesplit_parse_text_results sect is_timed

/-! ### `generic_table.py` -/

/-- The next-section probe of the generic `find_event_section`:
`r'\n\n\n|\n\s*(Boys|Girls|Men|Women)\s+\w+'` (`re.IGNORECASE`). -/
def genericNextSectionRE : RE :=
  .alt (reLits "\n\n\n".data)
    (reSeq [.lit '\n', .starG (.cls .space),
      .group 1 (reAlts [reLits "Boys".data, reLits "Girls".data,
        reLits "Men".data, reLits "Women".data]),
      RE.plusG (.cls .space), RE.plusG (.cls .word)])

/-- `GenericTableParser.find_event_section`: like the multi-event one
but *returning the whole document* when the header is not found. -/
def generic_find_event_section (content event_header : List Char) : List Char :=
  if event_header = [] then content
  else
    match ciFind content event_header with
    | none => content
    | some start =>
      let matchEnd := start + event_header.length
      match reSearch true genericNextSectionRE (content.drop matchEnd) with
      | some (j, _) => (content.drop start).take (matchEnd + j - start)
      | none => content.drop start

/-- `_looks_like_header`: at least two of the header vocabulary words
occur in the space-joined, lowered row. -/
def looks_like_header (parts : List (List Char)) : Bool :=
  let text := pyLower (joinWithSpaceList parts)
  2 ≤ (["place".data, "name".data, "school".data, "team".data, "time".data,
        "mark".data, "athlete".data, "result".data, "wind".data, "heat".data,
        "lane".data, "pl".data, "pos".data].filter fun w => strContains text w).length
where
  /-- `' '.join(parts)`. -/
  joinWithSpaceList : List (List Char) → List Char
    | [] => []
    | [p] => p
    | p :: ps => p ++ ' ' :: joinWithSpaceList ps

/-- The column map `_detect_columns` fills from a header row. -/
structure ColMap where
  place : Option ℕ := none
  name : Option ℕ := none
  school : Option ℕ := none
  mark : Option ℕ := none
  wind : Option ℕ := none
  heat : Option ℕ := none
deriving Repr, DecidableEq

/-- `_detect_columns`: later columns with the same role overwrite
earlier ones (plain dict assignment in a loop). -/
def detect_columns (headers : List (List Char)) : ColMap :=
  headers.enum.foldl
    (fun cm p =>
      let h := pyLower p.2
      if ["pl".data, "place".data, "pos".data, "position".data, "#".data].contains h then
        { cm with place := some p.1 }
      else if ["name".data, "athlete".data, "competitor".data].contains h then
        { cm with name := some p.1 }
      else if ["school".data, "team".data, "affiliation".data].contains h then
        { cm with school := some p.1 }
      else if ["time".data, "mark".data, "result".data, "perf".data,
          "performance".data].contains h then
        { cm with mark := some p.1 }
      else if ["wind".data, "w".data].contains h then
        { cm with wind := some p.1 }
      else if ["heat".data, "ht".data].contains h then
        { cm with heat := some p.1 }
      else cm)
    {}

/-- `re.match(r'^\d{1,2}:\d{2}', cell)`: one or two digits (greedy, with
backtracking to one), a colon, two digits. -/
def isTimePrefixCell (cell : List Char) : Bool :=
  match cell with
  | d1 :: ':' :: d3 :: d4 :: _ => isAsciiDigit d1 && isAsciiDigit d3 && isAsciiDigit d4
  | d1 :: d2 :: ':' :: d3 :: d4 :: _ =>
    isAsciiDigit d1 && isAsciiDigit d2 && isAsciiDigit d3 && isAsciiDigit d4
  | _ => false

/-- `re.match(r'^\d+\.\d+$', cell)` (cell texts never end in a
newline). -/
def isSecondsCell (cell : List Char) : Bool :=
  match cell.takeWhile isAsciiDigit, cell.dropWhile isAsciiDigit with
  | _ :: _, '.' :: r2 => !r2.isEmpty && r2.all isAsciiDigit
  | _, _ => false

/-- `re.match(r"^\d+['\-]", cell)`. -/
def isFeetPrefixCell (cell : List Char) : Bool :=
  match cell.takeWhile isAsciiDigit, cell.dropWhile isAsciiDigit with
  | _ :: _, c :: _ => c == '\'' || c == '-'
  | _, _ => false

/-- `re.match(r'^[A-Za-z][A-Za-z\s,.\'-]+$', cell)`: a letter followed
by at least one more character of the name class. -/
def isAutoNameCell (cell : List Char) : Bool :=
  match cell with
  | c :: rest => isAsciiAlpha c && !rest.isEmpty && rest.all fun x =>
      isAsciiAlpha x || isPySpace x || x == ',' || x == '.' || x == '\'' || x == '-'
  | [] => false

/-- Python float truthiness for the `not result.mark` test: `None` and
`0.0` are falsy. -/
def markFalsy : Option ℚ → Bool
  | none => true
  | some m => decide (m = 0)

/-- `GenericTableParser._auto_detect_cells`, one cell. -/
def genericAutoCellStep (is_timed : Bool) (r : ParsedResult) (cell : ℕ × List Char) :
    Except PyErr ParsedResult := do
  let (i, cell0) := cell
  let c := pyStrip cell0
  if c = [] then pure r
  else if i = 0 ∧ pyIsDigit c then
    pure { r with place := pyInt c }
  else if is_timed ∧ isTimePrefixCell c then do
    let mk ← parse_time_to_seconds c
    pure { r with mark_display := c, mark := mk }
  else if is_timed ∧ isSecondsCell c ∧ markFalsy r.mark then do
    let mk ← parse_time_to_seconds c
    pure { r with mark_display := c, mark := mk }
  else if ¬is_timed ∧ isFeetPrefixCell c then do
    let mk ← parse_distance_to_meters c
    pure { r with mark_display := c, mark := mk }
  else if isAutoNameCell c then
    pure (if r.athlete_name = [] then { r with athlete_name := c }
      else if r.school = [] then { r with school := c }
      else r)
  else pure r

/-- `GenericTableParser._auto_detect_cells`. -/
def generic_auto_detect_cells (cells : List (List Char)) (is_timed : Bool) :
    Except PyErr ParsedResult :=
  cells.enum.foldlM (genericAutoCellStep is_timed) {}

/-- `GenericTableParser._extract_from_cells`: header-mapped extraction,
then per-cell auto-detection (replacing the result wholesale) when no
athlete name was found. -/
def generic_extract_from_cells (cells : List (List Char)) (cm : ColMap)
    (is_timed : Bool) : Except PyErr ParsedResult := do
  let r : ParsedResult := {}
  let r :=
    match cm.place with
    | some i =>
      if i < cells.length then
        match pyInt (cells.getD i []) with
        | some v => { r with place := some v }
        | none => r
      else r
    | none => r
  let r :=
    match cm.name with
    | some i => if i < cells.length then { r with athlete_name := cells.getD i [] } else r
    | none => r
  let r :=
    match cm.school with
    | some i => if i < cells.length then { r with school := cells.getD i [] } else r
    | none => r
  let r ←
    match cm.mark with
    | some i =>
      if i < cells.length then do
        let mk ←
          if is_timed then parse_time_to_seconds (cells.getD i [])
          else parse_distance_to_meters (cells.getD i [])
        pure { r with mark_display := cells.getD i [], mark := mk }
      else pure r
    | none => pure r
  let r ←
    match cm.wind with
    | some i =>
      if i < cells.length then do
        let w ← parse_wind (cells.getD i [])
        pure { r with wind := w }
      else pure r
    | none => pure r
  if r.athlete_name = [] then generic_auto_detect_cells cells is_timed
  else pure r

/-- `GenericTableParser._parse_html`, over the extracted tables: the
first row (when it has cells) provides lowered headers and is skipped. -/
def generic_parse_html (tables : List (List (List (List Char)))) (is_timed : Bool) :
    Except PyErr (List ParsedResult) :=
  tables.foldlM
    (fun acc table =>
      let headers :=
        match table.head? with
        | some row0 => row0.map pyLower
        | none => []
      let cm := detect_columns headers
      let rows := if headers ≠ [] then table.tail else table
      rows.foldlM
        (fun acc cells => do
          let r ← generic_extract_from_cells cells cm is_timed
          pure (if r.athlete_name ≠ [] then acc ++ [r] else acc))
        acc)
    []

/-- The header probe of `_parse_tsv`: the first non-empty line either
sets headers and the start index after itself, or leaves both at their
defaults (`start_idx` stays 0, so earlier blank lines are rescanned). -/
def genericTsvHeader (lines : List (List Char)) : List (List Char) × ℕ :=
  go lines 0
where
  go : List (List Char) → ℕ → List (List Char) × ℕ
    | [], _ => ([], 0)
    | l :: ls, i =>
      if pyStrip l = [] then go ls (i + 1)
      else if looks_like_header (splitOnChar '\t' l) then
        ((splitOnChar '\t' l).map fun p => pyStrip (pyLower p), i + 1)
      else ([], 0)

/-- `GenericTableParser._parse_tsv`. -/
def generic_parse_tsv (sect : List Char) (is_timed : Bool) :
    Except PyErr (List ParsedResult) :=
  let lines := splitLines (pyStrip sect)
  let (headers, start_idx) := genericTsvHeader lines
  let cm := detect_columns headers
  (lines.drop start_idx).foldlM
    (fun acc line =>
      if pyStrip line = [] then pure acc
      else do
        let r ← generic_extract_from_cells ((splitOnChar '\t' line).map pyStrip) cm is_timed
        pure (if r.athlete_name ≠ [] then acc ++ [r] else acc))
    []

/-- `re.match(r'^(\d+)[.\s)\]]', line)` for the generic text line. -/
def matchPlaceDotParen (line : List Char) : Option (List Char × List Char) :=
  match line.takeWhile isAsciiDigit, line.dropWhile isAsciiDigit with
  | d :: ds, c :: rest =>
    if c = '.' ∨ isPySpace c ∨ c = ')' ∨ c = ']' then some (d :: ds, rest) else none
  | _, _ => none

/-- `r'(\d{1,2}:\d{2}\.\d+|\d+\.\d{2})'`. -/
def genericTimeRE : RE :=
  .group 1 (.alt
    (reSeq [.cls .digit, RE.optG (.cls .digit), .lit ':', .cls .digit, .cls .digit,
      .lit '.', RE.plusG (.cls .digit)])
    (reSeq [RE.plusG (.cls .digit), .lit '.', .cls .digit, .cls .digit]))

/-- `r"(\d+['\-]\d+(?:\.\d+)?[\"']?)"`. -/
def genericDistRE : RE :=
  .group 1 (reSeq [RE.plusG (.cls .digit), .cls (.oneOf ['\'', '-']),
    RE.plusG (.cls .digit), RE.optG (reSeq [.lit '.', RE.plusG (.cls .digit)]),
    RE.optG (.cls (.oneOf ['"', '\'']))])

/-- `GenericTableParser._parse_text_line` (unlike the multi-event
extractor, the split name and school parts are *not* stripped). -/
def generic_parse_text_line (line0 : List Char) (is_timed : Bool) :
    Except PyErr ParsedResult := do
  let (place, line1) :=
    match matchPlaceDotParen line0 with
    | some (d, rest) => (pyInt d, pyStrip rest)
    | none => ((none : Option ℤ), line0)
  let (markFields, line2) ←
    if is_timed then
      match reSearch false genericTimeRE line1 with
      | some (j, m) => do
        let g1 := (capLookup m.caps 1).getD []
        let mk ← parse_time_to_seconds g1
        pure ((g1, mk), pyStrip (line1.take j))
      | none => pure (([], (none : Option ℚ)), line1)
    else
      match reSearch false genericDistRE line1 with
      | some (j, m) => do
        let g1 := (capLookup m.caps 1).getD []
        let mk ← parse_distance_to_meters g1
        pure ((g1, mk), pyStrip (line1.take j))
      | none => pure (([], (none : Option ℚ)), line1)
  let (nm, sch) :=
    match reMatchStart false parenNameRE line2 with
    | some pm =>
      (pyStrip ((capLookup pm.caps 1).getD []), pyStrip ((capLookup pm.caps 2).getD []))
    | none =>
      match splitWs2 line2 with
      | p0 :: p1 :: _ => (p0, p1)
      | [p0] => (p0, [])
      | [] => ([], [])
  pure { place := place, mark_display := markFields.1, mark := markFields.2,
         athlete_name := nm, school := sch }

/-- `GenericTableParser._parse_text`: blank and header-looking lines are
skipped. -/
def generic_parse_text (sect : List Char) (is_timed : Bool) :
    Except PyErr (List ParsedResult) :=
  (splitLines (pyStrip sect)).foldlM
    (fun acc line0 =>
      let line := pyStrip line0
      if line = [] ∨ looks_like_header [line] = true then pure acc
      else do
        let r ← generic_parse_text_line line is_timed
        pure (if r.athlete_name ≠ [] then acc ++ [r] else acc))
    []

/-- `GenericTableParser.parse`. -/
def generic_parse (content : List Char) (tables : List (List (List (List Char))))
    (cfg : EventConfig) : Except PyErr (List ParsedResult) :=
  let sect := generic_find_event_section content cfg.event_header
  if sect = [] then .ok []
  else
    let is_timed := is_timed_event (cfg.canonical_event.getD [])
    if strContains (pyLower sect) "<table".data then
      generic_parse_html tables is_timed
    else if sect.contains '\t' then generic_parse_tsv sect is_timed
    else generic_parse_text sect is_timed

/-! ### `milesplit_single.py` -/

/-- `MilesplitSingleParser._is_header_line`: each header pattern is
tried as a `re.search` on the stripped, lowered line (`^...` patterns
become prefix tests, `...$` suffix tests, bare ones containment). -/
def is_header_line (line0 : List Char) : Bool :=
  let l := pyLower (pyStrip line0)
  (["boys".data, "girls".data, "men".data, "women".data].any fun p =>
      List.isPrefixOf p l) ||
  List.isSuffixOf "meter".data l || List.isSuffixOf "meters".data l ||
  strContains l "varsity".data || strContains l "jv".data ||
  strContains l "junior varsity".data ||
  strContains l "final".data || strContains l "prelim".data ||
  (["place".data, "name".data, "school".data, "time".data, "mark".data].any fun p =>
      List.isPrefixOf p l) ||
  (!l.isEmpty && l.all fun c => c = '-') ||
  (!l.isEmpty && l.all fun c => c = '=')

/-- The skip loop of `MilesplitSingleParser.find_event_section`: blank
lines are skipped without moving the start index, header lines move it
just past themselves, and the first data line stops the scan. -/
def msSingleStartAux : List (List Char) → ℕ → ℕ → ℕ
  | [], _, sidx => sidx
  | l :: ls, i, sidx =>
    let s := pyStrip l
    if s = [] then msSingleStartAux ls (i + 1) sidx
    else if is_header_line s then msSingleStartAux ls (i + 1) (i + 1)
    else sidx

/-- `MilesplitSingleParser.find_event_section` (the `event_header`
argument is unused by the source). -/
def milesplit_single_find_event_section (content : List Char) : List Char :=
  let lines := splitLines content
  joinLines (lines.drop (msSingleStartAux lines 0 0))

/-- `MilesplitSingleParser.parse`: the section is the whole file minus
leading blank/header lines; the extraction methods are inherited from
the multi-event extractor. -/
def milesplit_single_parse (content : List Char)
    (tables : List (List (List (List Char)))) (cfg : EventConfig) :
    Except PyErr (List ParsedResult) :=
  let sect := milesplit_single_find_event_section content
  if sect = [] then .ok []
  else
    let is_timed := is_timed_event (cfg.canonical_event.getD [])
    if strContains (pyLower sect) "<table".data ||
        strContains (pyLower sect) "<tr".data then
      milesplit_parse_html_table tables is_timed
    else milesplit_parse_text_results sect is_timed

/-! ### Provenance and name invariants for C5 and C9 -/

theorem append_space_ne_nil {xs ys : List Char} : xs ++ ' ' :: ys ≠ [] := by
  cases xs <;> simp

/-- Every individual-event result carries the gender-prefixed event name
and a non-empty athlete name (the name is `f"{first} {last}"`, which
always contains the joining space). -/
theorem hytek_individual_prov {t g n : List Char} {r : ParsedResult}
    (hr : r ∈ hytek_parse_individual_event t g n) :
    r.event_name = g ++ ' ' :: n ∧ r.athlete_name ≠ [] := by
  obtain ⟨line, -, hline⟩ := List.mem_filterMap.mp hr
  cases hm : reMatchStart false hytekIndivRE line with
  | none => rw [hm] at hline; cases hline
  | some mm =>
    rw [hm] at hline
    dsimp only at hline
    by_cases hst : isStatusCode (pyStrip ((capLookup mm.caps 7).getD [])) = true
    · rw [if_pos hst] at hline; cases hline
    · rw [if_neg hst] at hline
      cases hmk : hytekIndivMark (pyStrip ((capLookup mm.caps 7).getD [])) with
      | none => rw [hmk] at hline; cases hline
      | some mk =>
        rw [hmk] at hline
        cases hline
        exact ⟨rfl, append_space_ne_nil⟩

/-- The relay-loop provenance invariant: pending members carry non-empty
names, and accumulated results carry the event name and a non-empty
athlete name. -/
def RelayProv (full : List Char) (st : RelayState) : Prop :=
  (∀ mem ∈ st.members, mem.1 ≠ ([] : List Char)) ∧
  ∀ r ∈ st.results, r.event_name = full ∧ r.athlete_name ≠ []

theorem relayEmit_prov {full gc : List Char} {st : RelayState}
    (hm : ∀ mem ∈ st.members, mem.1 ≠ ([] : List Char)) :
    ∀ r ∈ relayEmit full gc st, r.event_name = full ∧ r.athlete_name ≠ [] := by
  intro r hr
  obtain ⟨mem, hmem, rfl⟩ := List.mem_map.mp hr
  exact ⟨rfl, hm mem hmem⟩

theorem relayLineStep_prov {full gc line : List Char} {st st' : RelayState}
    (hinv : RelayProv full st) (h : relayLineStep full gc st line = .ok st') :
    RelayProv full st' := by
  obtain ⟨hmem, hres⟩ := hinv
  unfold relayLineStep at h
  cases htm : reMatchStart false hytekTeamRE line with
  | some tm =>
    rw [htm] at h
    dsimp only at h
    obtain ⟨mk, hmk, hret⟩ := except_bind_ok h
    have := except_pure_ok hret
    subst this
    constructor
    · intro mem hm2; cases hm2
    · intro r hr
      dsimp only at hr
      by_cases htr : relayTruthy st = true
      · simp only [htr, if_true] at hr
        rcases List.mem_append.mp hr with h1 | h1
        · exact hres r h1
        · exact relayEmit_prov hmem r h1
      · simp only [Bool.not_eq_true] at htr
        simp only [htr, Bool.false_eq_true, if_false] at hr
        exact hres r hr
  | none =>
    rw [htm] at h
    cases hmm : reSearch false hytekMemberRE line with
    | none =>
      rw [hmm] at h
      cases hsch : st.school <;> simp only [hsch] at h <;> cases h <;> exact ⟨hmem, hres⟩
    | some mr =>
      rw [hmm] at h
      cases hsch : st.school with
      | none => simp only [hsch] at h; cases h; exact ⟨hmem, hres⟩
      | some sch =>
        simp only [hsch] at h
        by_cases he : sch.isEmpty
        · simp only [he, if_true] at h; cases h; exact ⟨hmem, hres⟩
        · simp only [he, Bool.false_eq_true, if_false] at h
          cases h
          refine ⟨?_, hres⟩
          intro mem hm3
          rcases List.mem_append.mp hm3 with h1 | h1
          · exact hmem mem h1
          · rw [List.mem_singleton] at h1
            subst h1
            exact append_space_ne_nil

theorem relay_foldlM_prov {full gc : List Char} {lines : List (List Char)}
    {st final : RelayState} (hinv : RelayProv full st)
    (h : lines.foldlM (relayLineStep full gc) st = .ok final) : RelayProv full final := by
  induction lines generalizing st with
  | nil =>
    simp only [List.foldlM_nil] at h
    cases except_pure_ok h
    exact hinv
  | cons l ls ih =>
    rw [List.foldlM_cons] at h
    obtain ⟨st1, hstep, hrest⟩ := except_bind_ok h
    exact ih (relayLineStep_prov hinv hstep) hrest

theorem hytek_relay_prov {t g n : List Char} {l : List ParsedResult}
    (h : hytek_parse_relay_event t g n = .ok l) :
    ∀ r ∈ l, r.event_name = g ++ ' ' :: n ∧ r.athlete_name ≠ [] := by
  unfold hytek_parse_relay_event at h
  obtain ⟨final, hfold, hret⟩ := except_bind_ok h
  cases except_pure_ok hret
  have hfinv : RelayProv (g ++ ' ' :: n) final :=
    relay_foldlM_prov ⟨fun mem hm => absurd hm (List.not_mem_nil mem),
      fun r hr => absurd hr (List.not_mem_nil r)⟩ hfold
  intro r hr
  by_cases htr : relayTruthy final = true
  · simp only [htr, if_true] at hr
    rcases List.mem_append.mp hr with h1 | h1
    · exact hfinv.2 r h1
    · exact relayEmit_prov hfinv.1 r h1
  · simp only [Bool.not_eq_true] at htr
    simp only [htr, Bool.false_eq_true, if_false] at hr
    exact hfinv.2 r hr

theorem hytekEventResults_prov {t g n : List Char} {l : List ParsedResult}
    (h : hytekEventResults t g n = .ok l) :
    ∀ r ∈ l, r.event_name = g ++ ' ' :: n ∧ r.athlete_name ≠ [] := by
  unfold hytekEventResults at h
  by_cases hrel : strContains (pyLower n) "relay".data = true
  · rw [if_pos hrel] at h
    exact hytek_relay_prov h
  · rw [if_neg hrel] at h
    cases h
    intro r hr
    exact hytek_individual_prov hr

/-- Every result of the all-events walk carries the event name of the
segment header it was parsed under, and a non-empty athlete name. -/
theorem hytekEventsGo_prov {content : List Char} {segs : List (ℕ × MRes)}
    {all : List ParsedResult} (hall : hytekEventsGo content segs = .ok all) :
    ∀ r ∈ all, ∃ p ∈ segs,
      r.event_name =
        (capLookup p.2.caps 1).getD [] ++ ' ' :: pyStrip ((capLookup p.2.caps 2).getD []) ∧
      r.athlete_name ≠ [] := by
  induction segs generalizing all with
  | nil =>
    simp only [hytekEventsGo] at hall
    cases except_pure_ok hall
    intro r hr
    cases hr
  | cons seg rest ih =>
    obtain ⟨i, m⟩ := seg
    simp only [hytekEventsGo] at hall
    obtain ⟨l1, hl1, hrest⟩ := except_bind_ok hall
    obtain ⟨l2, hl2, hret⟩ := except_bind_ok hrest
    cases except_pure_ok hret
    intro r hr
    rcases List.mem_append.mp hr with h1 | h1
    · exact ⟨(i, m), List.mem_cons_self _ _, hytekEventResults_prov hl1 r h1⟩
    · obtain ⟨p, hp, hprop⟩ := ih hl2 r h1
      exact ⟨p, List.mem_cons_of_mem _ hp, hprop⟩

/-- C5 (counterexample): the generic extractor does not return an empty
result list when the requested event header is absent from the document
— its `find_event_section` falls back to the whole document, which is
then parsed and can yield results. -/
theorem C5_counterexample :
    ciFind "John Smith  Springfield".data "Boys 100 Meters".data = none ∧
    generic_parse "John Smith  Springfield".data []
        { canonical_event := some "100 Meter Dash".data, gender := "Boys".data,
          event_header := "Boys 100 Meters".data } =
      .ok [{ athlete_name := "John Smith".data, school := "Springfield".data }] := by
  exact ⟨by decide, by decide⟩

/-- C5 (amended): when the requested event section is absent, the
milesplit multi-event extractor's `parse` returns the empty list, and
the timing-system extractor's `parse` — whenever it returns at all —
returns the empty list when no event header in the document matches the
configured gender and canonical event; the generic extractor instead
falls back to the *whole document* (`find_event_section` returns
`content` unchanged on a missed header), so its `parse` need not return
an empty list. -/
theorem C5_section_miss (cm ch cg hdr : List Char)
    (tables : List (List (List (List Char)))) (cfgM cfgH : EventConfig)
    (canonical : List Char) (res : List ParsedResult)
    (hhdr : cfgM.event_header ≠ [])
    (hmissM : ciFind cm cfgM.event_header = none)
    (hce : cfgH.canonical_event = some canonical)
    (hmissH : ∀ p ∈ reFindIter false hytekEventRE none ch 0,
      (capLookup p.2.caps 1).getD [] ++ ' ' :: pyStrip ((capLookup p.2.caps 2).getD [])
        ≠ cfgH.gender ++ ' ' :: canonical)
    (hokH : hytek_parse ch cfgH = .ok res)
    (hhdrG : hdr ≠ []) (hmissG : ciFind cg hdr = none) :
    milesplit_multi_parse cm tables cfgM = .ok [] ∧
    res = [] ∧
    generic_find_event_section cg hdr = cg := by
  refine ⟨?_, ?_, ?_⟩
  · have hsect : milesplit_find_event_section cm cfgM.event_header = [] := by
      unfold milesplit_find_event_section
      rw [if_neg hhdr, hmissM]
    unfold milesplit_multi_parse
    rw [hsect]
    simp
  · unfold hytek_parse at hokH
    obtain ⟨all, hall, hmatch⟩ := except_bind_ok hokH
    rw [hce] at hmatch
    cases except_pure_ok hmatch
    unfold hytek_parse_all_events at hall
    refine List.filter_eq_nil_iff.mpr ?_
    intro r hr
    obtain ⟨p, hp, hev, -⟩ := hytekEventsGo_prov hall r hr
    simp only [beq_iff_eq]
    rw [hev]
    exact hmissH p hp
  · unfold generic_find_event_section
    rw [if_neg hhdrG, hmissG]

/-- Witness for C5, at documents that contain no trace of the requested
events. -/
theorem C5_section_miss_witness :
    ciFind "zzz".data "Boys 100 Meters".data = none ∧
    ciFind "no results here".data "Boys 100 Meters".data = none ∧
    (milesplit_multi_parse "zzz".data []
        { canonical_event := some "100 Meter Dash".data, gender := "Boys".data,
          event_header := "Boys 100 Meters".data } = .ok [] ∧
      ([] : List ParsedResult) = [] ∧
      generic_find_event_section "no results here".data "Boys 100 Meters".data =
        "no results here".data) := by
  refine ⟨by decide, by decide, ?_⟩
  exact C5_section_miss "zzz".data "zzz".data "no results here".data
    "Boys 100 Meters".data []
    { canonical_event := some "100 Meter Dash".data, gender := "Boys".data,
      event_header := "Boys 100 Meters".data }
    { canonical_event := some "100 Meter Dash".data, gender := "Boys".data,
      event_header := "Boys 100 Meters".data }
    "100 Meter Dash".data []
    (by decide) (by decide) rfl (by decide) (by decide) (by decide) (by decide)

/-- A `foldlM` whose step preserves the all-names invariant preserves it
across the whole fold. -/
theorem foldlM_names {α : Type}
    {step : List ParsedResult → α → Except PyErr (List ParsedResult)}
    (hstep : ∀ acc x res2, step acc x = .ok res2 →
      (∀ r ∈ acc, r.athlete_name ≠ []) → ∀ r ∈ res2, r.athlete_name ≠ [])
    {xs : List α} {acc res : List ParsedResult}
    (hacc : ∀ r ∈ acc, r.athlete_name ≠ [])
    (h : xs.foldlM step acc = .ok res) : ∀ r ∈ res, r.athlete_name ≠ [] := by
  induction xs generalizing acc with
  | nil =>
    simp only [List.foldlM_nil] at h
    cases except_pure_ok h
    exact hacc
  | cons x xs ih =>
    rw [List.foldlM_cons] at h
    obtain ⟨acc1, hstep1, hrest⟩ := except_bind_ok h
    exact ih (hstep acc x acc1 hstep1 hacc) hrest

/-- Appending a result behind its own name guard preserves the all-names
invariant. -/
theorem guard_append_names {acc res2 : List ParsedResult} {r0 : ParsedResult}
    (hacc : ∀ r ∈ acc, r.athlete_name ≠ [])
    (h : (if r0.athlete_name ≠ [] then acc ++ [r0] else acc) = res2) :
    ∀ r ∈ res2, r.athlete_name ≠ [] := by
  subst h
  by_cases hnm : r0.athlete_name ≠ []
  · rw [if_pos hnm]
    intro r hr
    rcases List.mem_append.mp hr with h1 | h1
    · exact hacc r h1
    · rw [List.mem_singleton] at h1
      subst h1
      exact hnm
  · rw [if_neg hnm]
    exact hacc

theorem milesplit_html_names {tables : List (List (List (List Char)))} {it : Bool}
    {res : List ParsedResult} (h : milesplit_parse_html_table tables it = .ok res) :
    ∀ r ∈ res, r.athlete_name ≠ [] := by
  unfold milesplit_parse_html_table at h
  refine foldlM_names ?_ (fun r hr => absurd hr (List.not_mem_nil r)) h
  intro acc table res2 htab hacc
  refine foldlM_names ?_ hacc htab
  intro acc2 row res3 hrow hacc2
  by_cases hlen : row.length < 3
  · rw [if_pos hlen] at hrow
    cases except_pure_ok hrow
    exact hacc2
  · rw [if_neg hlen] at hrow
    obtain ⟨r0, -, hpure⟩ := except_bind_ok hrow
    exact guard_append_names hacc2 (except_pure_ok hpure)

theorem milesplit_text_names {sect : List Char} {it : Bool}
    {res : List ParsedResult} (h : milesplit_parse_text_results sect it = .ok res) :
    ∀ r ∈ res, r.athlete_name ≠ [] := by
  unfold milesplit_parse_text_results at h
  refine foldlM_names ?_ (fun r hr => absurd hr (List.not_mem_nil r)) h
  intro acc line0 res2 hline hacc
  dsimp only at hline
  by_cases hbl : pyStrip line0 = []
  · rw [if_pos hbl] at hline
    cases except_pure_ok hline
    exact hacc
  · rw [if_neg hbl] at hline
    obtain ⟨r0, -, hpure⟩ := except_bind_ok hline
    exact guard_append_names hacc (except_pure_ok hpure)

theorem generic_html_names {tables : List (List (List (List Char)))} {it : Bool}
    {res : List ParsedResult} (h : generic_parse_html tables it = .ok res) :
    ∀ r ∈ res, r.athlete_name ≠ [] := by
  unfold generic_parse_html at h
  refine foldlM_names ?_ (fun r hr => absurd hr (List.not_mem_nil r)) h
  intro acc table res2 htab hacc
  dsimp only at htab
  refine foldlM_names ?_ hacc htab
  intro acc2 cells res3 hrow hacc2
  obtain ⟨r0, -, hpure⟩ := except_bind_ok hrow
  exact guard_append_names hacc2 (except_pure_ok hpure)

theorem generic_tsv_names {sect : List Char} {it : Bool}
    {res : List ParsedResult} (h : generic_parse_tsv sect it = .ok res) :
    ∀ r ∈ res, r.athlete_name ≠ [] := by
  unfold generic_parse_tsv at h
  refine foldlM_names ?_ (fun r hr => absurd hr (List.not_mem_nil r)) h
  intro acc line res2 hline hacc
  by_cases hbl : pyStrip line = []
  · rw [if_pos hbl] at hline
    cases except_pure_ok hline
    exact hacc
  · rw [if_neg hbl] at hline
    obtain ⟨r0, -, hpure⟩ := except_bind_ok hline
    exact guard_append_names hacc (except_pure_ok hpure)

theorem generic_text_names {sect : List Char} {it : Bool}
    {res : List ParsedResult} (h : generic_parse_text sect it = .ok res) :
    ∀ r ∈ res, r.athlete_name ≠ [] := by
  unfold generic_parse_text at h
  refine foldlM_names ?_ (fun r hr => absurd hr (List.not_mem_nil r)) h
  intro acc line0 res2 hline hacc
  dsimp only at hline
  by_cases hsk : pyStrip line0 = [] ∨ looks_like_header [pyStrip line0] = true
  · rw [if_pos hsk] at hline
    cases except_pure_ok hline
    exact hacc
  · rw [if_neg hsk] at hline
    obtain ⟨r0, -, hpure⟩ := except_bind_ok hline
    exact guard_append_names hacc (except_pure_ok hpure)

theorem hytek_parse_names {content : List Char} {cfg : EventConfig}
    {res : List ParsedResult} (h : hytek_parse content cfg = .ok res) :
    ∀ r ∈ res, r.athlete_name ≠ [] := by
  unfold hytek_parse at h
  obtain ⟨all, hall, hmatch⟩ := except_bind_ok h
  unfold hytek_parse_all_events at hall
  have hnames : ∀ r ∈ all, r.athlete_name ≠ [] := by
    intro r hr
    obtain ⟨p, -, -, hname⟩ := hytekEventsGo_prov hall r hr
    exact hname
  cases hce : cfg.canonical_event with
  | none =>
    rw [hce] at hmatch
    cases except_pure_ok hmatch
    exact hnames
  | some canonical =>
    rw [hce] at hmatch
    cases except_pure_ok hmatch
    exact fun r hr => hnames r (List.mem_of_mem_filter hr)

/-- C9: every `ParsedResult` in a list returned by any extractor's
`parse` — milesplit multi-event, milesplit single-event, generic table,
or timing-system text — has a non-empty `athlete_name`: each extraction
path appends a row's result only behind an `athlete_name` guard (and the
timing-system name `f"{first} {last}"` always contains its joining
space), so rows that fail to yield a name are discarded, never surfaced
as partial records. -/
theorem C9_results_have_names (c1 c2 c3 c4 : List Char)
    (t1 t2 t3 : List (List (List (List Char))))
    (cfg1 cfg2 cfg3 cfg4 : EventConfig)
    (res1 res2 res3 res4 : List ParsedResult)
    (h1 : milesplit_multi_parse c1 t1 cfg1 = .ok res1)
    (h2 : milesplit_single_parse c2 t2 cfg2 = .ok res2)
    (h3 : generic_parse c3 t3 cfg3 = .ok res3)
    (h4 : hytek_parse c4 cfg4 = .ok res4) :
    (∀ r ∈ res1, r.athlete_name ≠ []) ∧ (∀ r ∈ res2, r.athlete_name ≠ []) ∧
    (∀ r ∈ res3, r.athlete_name ≠ []) ∧ ∀ r ∈ res4, r.athlete_name ≠ [] := by
  refine ⟨?_, ?_, ?_, hytek_parse_names h4⟩
  · unfold milesplit_multi_parse at h1
    simp only [] at h1
    split at h1
    · cases h1
      exact fun r hr => absurd hr (List.not_mem_nil r)
    · split at h1
      · exact milesplit_html_names h1
      · exact milesplit_text_names h1
  · unfold milesplit_single_parse at h2
    simp only [] at h2
    split at h2
    · cases h2
      exact fun r hr => absurd hr (List.not_mem_nil r)
    · split at h2
      · exact milesplit_html_names h2
      · exact milesplit_text_names h2
  · unfold generic_parse at h3
    simp only [] at h3
    split at h3
    · cases h3
      exact fun r hr => absurd hr (List.not_mem_nil r)
    · split at h3
      · exact generic_html_names h3
      · split at h3
        · exact generic_tsv_names h3
        · exact generic_text_names h3

/-- Witness for C9: the four extractors at concrete documents (the
single-event and generic ones return actual records, the other two the
empty list). -/
theorem C9_results_have_names_witness :
    (∀ r ∈ ([] : List ParsedResult), r.athlete_name ≠ []) ∧
    (∀ r ∈ [{ athlete_name := "zzz".data : ParsedResult }], r.athlete_name ≠ []) ∧
    (∀ r ∈ [{ athlete_name := "John Smith".data,
              school := "Springfield".data : ParsedResult }], r.athlete_name ≠ []) ∧
    ∀ r ∈ ([] : List ParsedResult), r.athlete_name ≠ [] := by
  exact C9_results_have_names
    "zzz".data "zzz".data "John Smith  Springfield".data "zzz".data
    [] [] []
    { canonical_event := some "100 Meter Dash".data, gender := "Boys".data,
      event_header := "Boys 100 Meters".data }
    { canonical_event := some "100 Meter Dash".data, gender := "Boys".data,
      event_header := "Boys 100 Meters".data }
    { canonical_event := some "100 Meter Dash".data, gender := "Boys".data,
      event_header := "Boys 100 Meters".data }
    { canonical_event := some "100 Meter Dash".data, gender := "Boys".data,
      event_header := "Boys 100 Meters".data }
    [] [{ athlete_name := "zzz".data }]
    [{ athlete_name := "John Smith".data, school := "Springfield".data }] []
    (by decide) (by decide) (by decide) (by decide)
